import Mathlib

/-!
# ATMaster: receive-side framing and dispatch of AT responses

A shallow embedding of `uart_at_master.cpp`: the ring buffer (`_buf_add`,
`_buf_take`, `buf_compare`), the byte-arrival handler `_rx_irq` with its three
framing modes, the mode switch `set_line_mode` and the classifier `process`.

Conventions of the embedding.

* A `char` is a `Nat`; `'\r'` is 13, `'\n'` is 10 and `'\0'` is 0.
* The header `uart_at_master.h` is not part of the sources.  The buffer size
  `__AT_MASTER_BUF_SIZE` is therefore a parameter `CAP` of every operation
  that uses it.  The counters `_has_data` and `_buf_message_len` are unsigned
  32-bit words (`has_data()` returns `_has_data` as a `uint32_t`), so `x++`
  on them is `(x + 1) % 2^32`.  The ring indices and the occupancy are kept
  below `CAP` by the guards of the code and need no reduction.
* The status LEDs and the debug serial port are observational and left out.
* `_rx_irq` is modelled for a readable UART: the received byte is the
  argument `recv`.
-/

/-- The enumeration `_AT_LINE_MODE`; its declaration is in the absent header, the
enumerators are the three that the source switches on. -/
inductive _AT_LINE_MODE where
  | AT_LINE_CRLF
  | AT_LINE_LF
  | AT_LINE_LENGTH
  deriving DecidableEq

/-- The enumeration `_AT_RESPONSE_TYPE`; its declaration is in the absent header,
the enumerators are the seven that `process` returns. -/
inductive _AT_RESPONSE_TYPE where
  | AT_RESPONSE_NONE
  | AT_RESPONSE_INIT
  | AT_RESPONSE_OK
  | AT_RESPONSE_ERROR
  | AT_RESPONSE_CUSTOM
  | AT_RESPONSE_OTHER
  | AT_RESPONSE_BLANKLINE
  deriving DecidableEq

open _AT_LINE_MODE _AT_RESPONSE_TYPE

/-- A `char *` member that the constructor does not assign.  `assigned s` points
at the caller's string whose bytes before the terminating null are `s`.
`unassigned mem` is the member before any setter has run: the pointer value is
indeterminate and `mem` stands for the bytes a read through it finds. -/
inductive CStrPtr where
  | unassigned (mem : List Nat)
  | assigned (s : List Nat)

/-- The bytes that a read through the pointer walks over. -/
def CStrPtr.chars : CStrPtr → List Nat
  | CStrPtr.unassigned mem => mem
  | CStrPtr.assigned s => s

/-- Whether a setter has stored a string in the member. -/
def CStrPtr.registered : CStrPtr → Bool
  | CStrPtr.unassigned _ => false
  | CStrPtr.assigned _ => true

/-- Modelled from the spec: the header that declares the counters `_has_data`
and `_buf_message_len` is absent.  The spec calls the pending counter unsigned
and `has_data()` returns it as a `uint32_t`, so both counters are taken to be
unsigned 32-bit words and this is their modulus. -/
def UINT32_MOD : Nat := 4294967296

/-- The data members of `class ATMaster` that the receive path uses. -/
structure ATMaster where
  _at_ok_prefix : List Nat
  _at_error_prefix : List Nat
  _at_init_prefix : CStrPtr
  _at_custom_prefix : CStrPtr
  _line_mode : _AT_LINE_MODE
  _buf_message_len : Nat
  _has_data : Nat
  _wait_init : Bool
  expected_length : Nat
  _buf : Nat → Nat
  _buf_head : Nat
  _buf_tail : Nat
  _buf_len : Nat
  _last_received_char : Nat

/-- A caller buffer `char *`: `none` is the null pointer, `some d` is memory
whose byte at offset `i` is `d i`. -/
abbrev Dest := Option (Nat → Nat)

/-- The assignment `d[i] = c`. -/
def store (d : Nat → Nat) (i c : Nat) : Nat → Nat :=
  fun j => if j = i then c else d j

/-- ATMaster::ATMaster.  The constructor assigns the two prefixes, the mode,
the two counters, the wait-init flag and `expected_length`; every other member
keeps the value `raw` held before construction. -/
def ATMaster.ctor (raw : ATMaster) ( ok_prefix error_prefix : List Nat) : ATMaster :=
  { raw with
    _at_ok_prefix := ok_prefix
    _at_error_prefix := error_prefix
    _line_mode := AT_LINE_CRLF
    _buf_message_len := 0
    _has_data := 0
    _wait_init := false
    expected_length := 0 }

/-- ATMaster::set_init_prefix. -/
def ATMaster.set_init_prefix (s : ATMaster) ( init_prefix : List Nat) : ATMaster :=
  { s with _at_init_prefix := CStrPtr.assigned init_prefix, _wait_init := true }

/-- ATMaster::set_custom_prefix. -/
def ATMaster.set_custom_prefix (s : ATMaster) ( custom_prefix : List Nat) : ATMaster :=
  { s with _at_custom_prefix := CStrPtr.assigned custom_prefix }

/-- ATMaster::_buf_add. -/
def ATMaster._buf_add (CAP : Nat) (s : ATMaster) (value : Nat) : ATMaster :=
  if s._buf_len < CAP then
    { s with
      _buf := store s._buf s._buf_head value
      _buf_len := s._buf_len + 1
      _buf_head := if s._buf_head + 1 ≥ CAP then 0 else s._buf_head + 1 }
  else s

/-- ATMaster::_buf_take: the returned byte and the state after the call. -/
def ATMaster._buf_take (CAP : Nat) (s : ATMaster) : Nat × ATMaster :=
  if s._buf_len > 0 then
    (s._buf s._buf_tail,
      { s with
        _buf_len := s._buf_len - 1
        _buf_tail := if s._buf_tail + 1 ≥ CAP then 0 else s._buf_tail + 1 })
  else (0, s)

/-- The `while (value[i])` loop of `buf_compare`, started at offset `i` with
the ring cursor at `i_buf`; the list holds the bytes of `value` from offset `i`
on and its end is the terminating null.  `none` is a `return 0` from inside the
loop, `some i` is the offset at which the loop ended. -/
def ATMaster.buf_compare_loop (CAP : Nat) (s : ATMaster) : List Nat → Nat → Nat → Option Nat
  | [], i, _ => some i
  | v :: value, i, i_buf =>
    if v = 0 then some i
    else if i ≥ s._buf_len then none
    else if v ≠ s._buf i_buf then none
    else ATMaster.buf_compare_loop CAP s value (i + 1)
      (if i_buf + 1 ≥ CAP then 0 else i_buf + 1)

/-- ATMaster::buf_compare. -/
def ATMaster.buf_compare (CAP : Nat) (s : ATMaster) (value : List Nat) (exact_length : Bool) : Bool :=
  match ATMaster.buf_compare_loop CAP s value 0 s._buf_tail with
  | none => false
  | some i => if exact_length && decide (s._buf_len > i) then false else true

/-- ATMaster::set_line_mode. -/
def ATMaster.set_line_mode (CAP : Nat) (s : ATMaster) (new_mode : _AT_LINE_MODE) : ATMaster :=
  let s1 := { s with _line_mode := new_mode }
  if new_mode = AT_LINE_LENGTH then
    if s1._buf_message_len ≥ s1.expected_length then
      let s2 := ATMaster._buf_add CAP s1 0
      { s2 with _has_data := (s2._has_data + 1) % UINT32_MOD, _buf_message_len := 0 }
    else s1
  else s1

/-- ATMaster::_rx_irq for a readable UART that delivers the byte `recv`. -/
def ATMaster._rx_irq (CAP : Nat) (s : ATMaster) (recv : Nat) : ATMaster :=
  match s._line_mode with
  | AT_LINE_CRLF =>
    let s1 :=
      if recv = 13 then
        if s._last_received_char = 13 then ATMaster._buf_add CAP s s._last_received_char
        else s
      else if recv = 10 ∧ s._last_received_char = 13 then
        let s2 := ATMaster._buf_add CAP s 0
        { s2 with _has_data := (s2._has_data + 1) % UINT32_MOD, _buf_message_len := 0 }
      else
        let s2 := ATMaster._buf_add CAP s recv
        { s2 with _buf_message_len := (s2._buf_message_len + 1) % UINT32_MOD }
    { s1 with _last_received_char := recv }
  | AT_LINE_LF =>
    if recv = 10 then
      let s2 := ATMaster._buf_add CAP s 0
      { s2 with _has_data := (s2._has_data + 1) % UINT32_MOD, _buf_message_len := 0 }
    else
      let s2 := ATMaster._buf_add CAP s recv
      { s2 with _buf_message_len := (s2._buf_message_len + 1) % UINT32_MOD }
  | AT_LINE_LENGTH =>
    let s1 := ATMaster._buf_add CAP s recv
    let s2 := { s1 with _buf_message_len := (s1._buf_message_len + 1) % UINT32_MOD }
    if s2._buf_message_len ≥ s2.expected_length then
      let s3 := ATMaster._buf_add CAP s2 0
      { s3 with _has_data := (s3._has_data + 1) % UINT32_MOD, _buf_message_len := 0 }
    else s2

/-- The `while (c)` loop of `process`: `c` is the byte taken last, `i` the
write offset in the destination.  Returns the state, the destination and the
offset with which the loop ends. -/
def ATMaster.drain (CAP : Nat) (s : ATMaster) (c : Nat) (destination_string : Dest) (i : Nat) :
    ATMaster × Dest × Nat :=
  if c = 0 then (s, destination_string, i)
  else
    match destination_string with
    | some d =>
      ATMaster.drain CAP (ATMaster._buf_take CAP s).2 (ATMaster._buf_take CAP s).1
        (some (store d i c)) (i + 1)
    | none =>
      ATMaster.drain CAP (ATMaster._buf_take CAP s).2 (ATMaster._buf_take CAP s).1 none i
termination_by s._buf_len + (if c = 0 then 0 else 1)
decreasing_by
  all_goals
    rename_i h
    simp only [ATMaster._buf_take, if_neg h]
    split_ifs <;> simp <;> omega

/-- The classification step of `process`, on the state whose pending counter
has already been decremented: the response kind and the state after it. -/
def ATMaster.classify (CAP : Nat) (s : ATMaster) : _AT_RESPONSE_TYPE × ATMaster :=
  if s._wait_init && ATMaster.buf_compare CAP s (CStrPtr.chars s._at_init_prefix) false then
    (AT_RESPONSE_INIT, { s with _wait_init := false })
  else if ATMaster.buf_compare CAP s s._at_ok_prefix false then (AT_RESPONSE_OK, s)
  else if ATMaster.buf_compare CAP s s._at_error_prefix false then (AT_RESPONSE_ERROR, s)
  else if ATMaster.buf_compare CAP s (CStrPtr.chars s._at_custom_prefix) false then
    (AT_RESPONSE_CUSTOM, s)
  else (AT_RESPONSE_OTHER, s)

/-- ATMaster::process: the returned kind, the state and the destination after
the call. -/
def ATMaster.process (CAP : Nat) (s : ATMaster) (destination_string : Dest) :
    _AT_RESPONSE_TYPE × ATMaster × Dest :=
  if s._has_data = 0 then (AT_RESPONSE_NONE, s, destination_string)
  else
    let cl := ATMaster.classify CAP { s with _has_data := s._has_data - 1 }
    let r :=
      if cl.2._buf_len ≠ 0 then
        let t := ATMaster._buf_take CAP cl.2
        let l := ATMaster.drain CAP t.2 t.1 destination_string 0
        (l.1, l.2.1.map (fun d => store d l.2.2 0), l.2.2)
      else (cl.2, destination_string, 0)
    (if r.2.2 = 0 then AT_RESPONSE_BLANKLINE else cl.1, r.1, r.2.1)

/-- Feeding a sequence of bytes to the byte-arrival handler, one at a time. -/
def ATMaster.feed (CAP : Nat) (s : ATMaster) (bytes : List Nat) : ATMaster :=
  bytes.foldl (ATMaster._rx_irq CAP) s

/-- Modelled from the spec: the storage of a driver object before its
constructor runs.  The header with the member declarations is absent and the
constructor assigns neither the ring indices, the occupancy nor the last
received byte; they start at zero as the spec's data model says (empty ring
buffer, last byte zero).  The bytes found behind the two prefix pointers that
no setter has assigned yet are the parameters `init_mem` and `custom_mem`. -/
def ATMaster.zeroed (init_mem custom_mem : List Nat) : ATMaster :=
  { _at_ok_prefix := []
    _at_error_prefix := []
    _at_init_prefix := CStrPtr.unassigned init_mem
    _at_custom_prefix := CStrPtr.unassigned custom_mem
    _line_mode := AT_LINE_CRLF
    _buf_message_len := 0
    _has_data := 0
    _wait_init := false
    expected_length := 0
    _buf := fun _ => 0
    _buf_head := 0
    _buf_tail := 0
    _buf_len := 0
    _last_received_char := 0 }

/-- The freshly constructed driver with the given ok and error prefixes. -/
def ATMaster.fresh ( ok_prefix error_prefix init_mem custom_mem : List Nat) : ATMaster :=
  ATMaster.ctor (ATMaster.zeroed init_mem custom_mem) ok_prefix error_prefix

/-- The buffered byte at offset `j` behind the tail. -/
def ATMaster.peek (CAP : Nat) (s : ATMaster) (j : Nat) : Nat :=
  s._buf ((s._buf_tail + j) % CAP)

/-- The state with the first `n` buffered bytes removed. -/
def ATMaster.skip (CAP : Nat) (s : ATMaster) (n : Nat) : ATMaster :=
  { s with _buf_len := s._buf_len - n, _buf_tail := (s._buf_tail + n) % CAP }

/-- The ring invariant: indices below `CAP`, occupancy at most `CAP`, and the
head sits `occupancy` places behind the tail. -/
def ATMaster.wf (CAP : Nat) (s : ATMaster) : Prop :=
  s._buf_head < CAP ∧ s._buf_tail < CAP ∧ s._buf_len ≤ CAP ∧
    s._buf_head = (s._buf_tail + s._buf_len) % CAP

instance ATMaster.wf_decidable (CAP : Nat) (s : ATMaster) : Decidable (ATMaster.wf CAP s) := by
  unfold ATMaster.wf
  infer_instance

/-- The occupied bytes of the ring buffer, oldest first. -/
def ATMaster.contents (CAP : Nat) (s : ATMaster) : List Nat :=
  (List.range s._buf_len).map (ATMaster.peek CAP s)

/-- The message at the tail: the buffered bytes from the tail up to the first
`'\0'`, which lies inside the occupied part, are `msg`. -/
def ATMaster.framed (CAP : Nat) (s : ATMaster) (msg : List Nat) : Prop :=
  msg.length < s._buf_len ∧ (∀ j, j < msg.length → ATMaster.peek CAP s j = msg.getD j 0) ∧
    (∀ b ∈ msg, b ≠ 0) ∧ ATMaster.peek CAP s msg.length = 0

/-- The destination after a message `msg` has been copied into `d` and
null-terminated. -/
def delivered (msg : List Nat) (d : Nat → Nat) : Nat → Nat :=
  store (fun j => if j < msg.length then msg.getD j 0 else d j) msg.length 0

/-- The configuration that the byte-arrival handler never writes. -/
def ATMaster.regs (s : ATMaster) :
    List Nat × List Nat × CStrPtr × CStrPtr × Bool × Nat × _AT_LINE_MODE :=
  ( s._at_ok_prefix, s._at_error_prefix, s._at_init_prefix, s._at_custom_prefix, s._wait_init,
    s.expected_length, s._line_mode)

/-- The caller's direct write to the public member `expected_length`. -/
def ATMaster.set_expected_length (s : ATMaster) (n : Nat) : ATMaster :=
  { s with expected_length := n }

/-- One call into the driver. -/
inductive Op where
  | rx (recv : Nat)
  | process (dest : Dest)
  | set_line_mode (new_mode : _AT_LINE_MODE)
  | set_expected_length (n : Nat)
  | set_custom (custom : List Nat)
  | set_init (init : List Nat)

/-- Whether the call is `set_init_prefix`. -/
def Op.arms : Op → Bool
  | Op.set_init _ => true
  | _ => false

/-- The state after one call and the kinds that `process` returned in it. -/
def ATMaster.step (CAP : Nat) (s : ATMaster) : Op → ATMaster × List _AT_RESPONSE_TYPE
  | Op.rx recv => (ATMaster._rx_irq CAP s recv, [])
  | Op.process dest => ((ATMaster.process CAP s dest).2.1, [(ATMaster.process CAP s dest).1])
  | Op.set_line_mode new_mode => (ATMaster.set_line_mode CAP s new_mode, [])
  | Op.set_expected_length n => (ATMaster.set_expected_length s n, [])
  | Op.set_custom custom => (ATMaster.set_custom_prefix s custom, [])
  | Op.set_init init => (ATMaster.set_init_prefix s init, [])

/-- The state after a sequence of calls and the kinds returned by its
`process` calls, in order. -/
def ATMaster.run (CAP : Nat) : ATMaster → List Op → ATMaster × List _AT_RESPONSE_TYPE
  | s, [] => (s, [])
  | s, op :: ops =>
    ((ATMaster.run CAP (ATMaster.step CAP s op).1 ops).1,
      (ATMaster.step CAP s op).2 ++ (ATMaster.run CAP (ATMaster.step CAP s op).1 ops).2)

/-- The driver of the end-to-end scenarios, `CAP = 128`, ok prefix `"OK"`, error
prefix `"ERROR"`, after the bytes `"OK\r\n"` have arrived; nothing lies behind
the two unassigned prefix pointers. -/
def scenario_ok_line : ATMaster :=
  ATMaster.feed 128 (ATMaster.fresh [79, 75] [69, 82, 82, 79, 82] [] []) [79, 75, 13, 10]

/-- The scenario driver after the bytes `"A\rB\r\n"` have arrived. -/
def scenario_embedded_cr : ATMaster :=
  ATMaster.feed 128 (ATMaster.fresh [79, 75] [69, 82, 82, 79, 82] [] []) [65, 13, 66, 13, 10]

/-- The precedence rule in the spec's words, as a function of the message at
the tail: INIT if wait-init is set and the message starts with the init prefix,
else OK, ERROR, CUSTOM for the first of the ok, error and custom prefixes that
the message starts with, else OTHER.  `process` is compared with it in C4. -/
def classify_spec (wait_init : Bool) (init ok err custom msg : List Nat) : _AT_RESPONSE_TYPE :=
  if wait_init && init.isPrefixOf msg then AT_RESPONSE_INIT
  else if ok.isPrefixOf msg then AT_RESPONSE_OK
  else if err.isPrefixOf msg then AT_RESPONSE_ERROR
  else if custom.isPrefixOf msg then AT_RESPONSE_CUSTOM
  else AT_RESPONSE_OTHER

/-- The scenario driver with the custom prefix `"+CME"` registered, after the
bytes `"+CME ERROR: 10\r\n"` have arrived. -/
def scenario_custom : ATMaster :=
  ATMaster.feed 128
    (ATMaster.set_custom_prefix (ATMaster.fresh [79, 75] [69, 82, 82, 79, 82] [] [])
      [43, 67, 77, 69])
    [43, 67, 77, 69, 32, 69, 82, 82, 79, 82, 58, 32, 49, 48, 13, 10]

/-- The scenario driver armed with the init prefix `"READY"`, after the bytes
`"READY\r\nREADY\r\n"` have arrived.  The byte behind the unassigned custom
pointer is taken to be `0xFF`, which starts no message here. -/
def scenario_init : ATMaster :=
  ATMaster.feed 128
    (ATMaster.set_init_prefix (ATMaster.fresh [79, 75] [69, 82, 82, 79, 82] [] [255])
      [82, 69, 65, 68, 89])
    [82, 69, 65, 68, 89, 13, 10, 82, 69, 65, 68, 89, 13, 10]

/-- The scenario driver on which `set_custom_prefix` is never called, with
`custom_mem` behind the unassigned custom pointer: `expected_length = 5`, switch
to LENGTH mode, then the bytes `"HELLO"` arrive. -/
def scenario_length (custom_mem : List Nat) : ATMaster :=
  ATMaster.feed 128
    (ATMaster.set_line_mode 128
      (ATMaster.set_expected_length (ATMaster.fresh [79, 75] [69, 82, 82, 79, 82] [] custom_mem) 5)
      AT_LINE_LENGTH)
    [72, 69, 76, 76, 79]

/-- The scenario driver after the bytes `"HELLO"` arrived in CRLF mode and the
caller set `expected_length = 5`. -/
def scenario_late_close : ATMaster :=
  ATMaster.set_expected_length
    (ATMaster.feed 128 (ATMaster.fresh [79, 75] [69, 82, 82, 79, 82] [] []) [72, 69, 76, 76, 79]) 5

/-- A driver with `CAP = 2` whose ring buffer is full: `"AB"` arrived in CRLF
mode and the caller set `expected_length = 2`. -/
def scenario_full : ATMaster :=
  ATMaster.set_expected_length
    (ATMaster.feed 2 (ATMaster.fresh [79, 75] [69, 82, 82, 79, 82] [] []) [65, 66]) 2

/-- The scenario driver switched to LENGTH mode with `expected_length = k`. -/
def scenario_length_mode (k : Nat) : ATMaster :=
  ATMaster.set_line_mode 128
    (ATMaster.set_expected_length (ATMaster.fresh [79, 75] [69, 82, 82, 79, 82] [] []) k)
    AT_LINE_LENGTH

/-- The bytes on the wire for a list of lines, each followed by `'\r'`, `'\n'`. -/
def crlf_wire : List (List Nat) → List Nat
  | [] => []
  | l :: ls => (l ++ [13, 10]) ++ crlf_wire ls

/-- The same lines as the ring buffer holds them, each followed by its `'\0'`
sentinel. -/
def framed_stream : List (List Nat) → List Nat
  | [] => []
  | l :: ls => l ++ 0 :: framed_stream ls

/-- One `process(dest)` call after the other, one for each destination of the
list: the final state, and the kind and destination that each call returns. -/
def ATMaster.process_each (CAP : Nat) :
    ATMaster → List (Nat → Nat) → ATMaster × List (_AT_RESPONSE_TYPE × Dest)
  | s, [] => (s, [])
  | s, d :: ds =>
    ((ATMaster.process_each CAP (ATMaster.process CAP s (some d)).2.1 ds).1,
      ((ATMaster.process CAP s (some d)).1, (ATMaster.process CAP s (some d)).2.2) ::
        (ATMaster.process_each CAP (ATMaster.process CAP s (some d)).2.1 ds).2)

/-- One call on the ring buffer: `_buf_add(value)` or `_buf_take()`. -/
inductive RingOp where
  | put (value : Nat)
  | take

/-- The driver after a sequence of `_buf_add` and `_buf_take` calls, and the
bytes that the `_buf_take` calls returned, in order. -/
def ATMaster.ring_run (CAP : Nat) : ATMaster → List RingOp → ATMaster × List Nat
  | s, [] => (s, [])
  | s, RingOp.put value :: ops => ATMaster.ring_run CAP (ATMaster._buf_add CAP s value) ops
  | s, RingOp.take :: ops =>
    ((ATMaster.ring_run CAP (ATMaster._buf_take CAP s).2 ops).1,
      (ATMaster._buf_take CAP s).1 :: (ATMaster.ring_run CAP (ATMaster._buf_take CAP s).2 ops).2)

/-- The spec's `put` on a bounded FIFO queue of capacity `CAP`, oldest byte
first: append at the back when there is room, else discard. -/
def fifo_put (CAP : Nat) (q : List Nat) (v : Nat) : List Nat :=
  if q.length < CAP then q ++ [v] else q

/-- The spec's `take` on a bounded FIFO queue: remove and return the oldest
byte, or return `0` when the queue is empty. -/
def fifo_take : List Nat → Nat × List Nat
  | [] => (0, [])
  | x :: rest => (x, rest)

/-- The bounded FIFO queue after a sequence of operations, and the bytes its
`take` operations returned. -/
def fifo_run (CAP : Nat) : List Nat → List RingOp → List Nat × List Nat
  | q, [] => (q, [])
  | q, RingOp.put v :: ops => fifo_run CAP (fifo_put CAP q v) ops
  | q, RingOp.take :: ops =>
    ((fifo_run CAP (fifo_take q).2 ops).1, (fifo_take q).1 :: (fifo_run CAP (fifo_take q).2 ops).2)

/-- The number of `_buf_take` calls that the `while (c)` loop of `process`
makes: one in each round, and a round runs while the byte taken last is not
`'\0'`.  The recursion is that of `drain`. -/
def ATMaster.drain_takes (CAP : Nat) (s : ATMaster) (c : Nat) : Nat :=
  if c = 0 then 0
  else ATMaster.drain_takes CAP (ATMaster._buf_take CAP s).2 (ATMaster._buf_take CAP s).1 + 1
termination_by s._buf_len + (if c = 0 then 0 else 1)
decreasing_by
  all_goals
    rename_i h
    simp only [ATMaster._buf_take, if_neg h]
    split_ifs <;> simp <;> omega

/-- The number of `_buf_take` calls that one `process` call makes: none when
nothing is pending or the buffer is empty, else the one before the loop and
those of the loop. -/
def ATMaster.process_takes (CAP : Nat) (s : ATMaster) : Nat :=
  if s._has_data = 0 then 0
  else if (ATMaster.classify CAP { s with _has_data := s._has_data - 1 }).2._buf_len ≠ 0 then
    ATMaster.drain_takes CAP
      (ATMaster._buf_take CAP
        (ATMaster.classify CAP { s with _has_data := s._has_data - 1 }).2).2
      (ATMaster._buf_take CAP
        (ATMaster.classify CAP { s with _has_data := s._has_data - 1 }).2).1 + 1
  else 0

/-- The driver with `CAP = 2` whose pending counter is 1 while its full ring
buffer holds `"AB"` and no sentinel: the late close of `scenario_full` lost
the sentinel to the full buffer. -/
def scenario_no_sentinel : ATMaster :=
  ATMaster.set_line_mode 2 scenario_full AT_LINE_LENGTH

/-- The scenario driver after `'\r'`, `'\r'` arrived in CRLF mode. -/
def scenario_double_cr : ATMaster :=
  ATMaster.feed 128 (ATMaster.fresh [79, 75] [69, 82, 82, 79, 82] [] []) [13, 13]

/-- The scenario driver after `'\r'` arrived in CRLF mode, then `'B'` in LF
mode, then `'\n'` back in CRLF mode. -/
def scenario_stale_cr : ATMaster :=
  ATMaster._rx_irq 128
    (ATMaster.set_line_mode 128
      (ATMaster._rx_irq 128
        (ATMaster.set_line_mode 128
          (ATMaster._rx_irq 128 (ATMaster.fresh [79, 75] [69, 82, 82, 79, 82] [] []) 13)
          AT_LINE_LF)
        66)
      AT_LINE_CRLF)
    10

/-- The number of `'\0'` bytes that one `_buf_add(value)` stores at occupancy
`len`: one when there is room and `value` is `'\0'`, none otherwise. -/
def zero_stored (CAP len value : Nat) : Nat :=
  if len < CAP ∧ value = 0 then 1 else 0

/-- The occupancy that one `_buf_add` leaves at occupancy `len`. -/
def len_after (CAP len : Nat) : Nat :=
  if len < CAP then len + 1 else len

/-- The number of `'\0'` bytes that a driver call stores in the ring buffer in
state `s`, following the `_buf_add` calls of `_rx_irq` and `set_line_mode`
branch by branch; `process` and the setters store none. -/
def ATMaster.zeros_stored (CAP : Nat) (s : ATMaster) : Op → Nat
  | Op.rx recv =>
    match s._line_mode with
    | AT_LINE_CRLF =>
      if recv = 13 then
        if s._last_received_char = 13 then zero_stored CAP s._buf_len s._last_received_char
        else 0
      else if recv = 10 ∧ s._last_received_char = 13 then zero_stored CAP s._buf_len 0
      else zero_stored CAP s._buf_len recv
    | AT_LINE_LF =>
      if recv = 10 then zero_stored CAP s._buf_len 0 else zero_stored CAP s._buf_len recv
    | AT_LINE_LENGTH =>
      zero_stored CAP s._buf_len recv +
        (if (s._buf_message_len + 1) % UINT32_MOD ≥ s.expected_length then
          zero_stored CAP (len_after CAP s._buf_len) 0
        else 0)
  | Op.set_line_mode new_mode =>
    if new_mode = AT_LINE_LENGTH ∧ s._buf_message_len ≥ s.expected_length then
      zero_stored CAP s._buf_len 0
    else 0
  | _ => 0

/-- The number of `_has_data++` that a driver call runs in state `s`: one when
`_rx_irq` or `set_line_mode` closes a frame, none otherwise. -/
def ATMaster.pending_added (s : ATMaster) : Op → Nat
  | Op.rx recv =>
    match s._line_mode with
    | AT_LINE_CRLF =>
      if recv = 13 then 0
      else if recv = 10 ∧ s._last_received_char = 13 then 1
      else 0
    | AT_LINE_LF => if recv = 10 then 1 else 0
    | AT_LINE_LENGTH =>
      if (s._buf_message_len + 1) % UINT32_MOD ≥ s.expected_length then 1 else 0
  | Op.set_line_mode new_mode =>
    if new_mode = AT_LINE_LENGTH ∧ s._buf_message_len ≥ s.expected_length then 1 else 0
  | _ => 0

/-- A sequence of driver calls from state `s` in which every call stores as
many `'\0'` bytes in the ring buffer as it adds to the pending counter: no
`'\0'` byte from the wire is stored without a frame closing, and no frame
closes without a `'\0'` being stored. -/
def ATMaster.clean (CAP : Nat) : ATMaster → List Op → Prop
  | _, [] => True
  | s, op :: ops =>
    ATMaster.zeros_stored CAP s op = ATMaster.pending_added s op ∧
      ATMaster.clean CAP (ATMaster.step CAP s op).1 ops

/-- The pending counter equals the number of `'\0'` bytes among the occupied
bytes of a well-formed ring. -/
def ATMaster.paired (CAP : Nat) (s : ATMaster) : Prop :=
  ATMaster.wf CAP s ∧ s._has_data = (ATMaster.contents CAP s).count 0

/-- What a call other than `process` does to the ring and the pending counter:
the ring stays well-formed, the number of buffered `'\0'` bytes grows by
`zeros_stored`, and the pending counter is incremented when `pending_added` is
not 0. -/
def ATMaster.accounted (CAP : Nat) (s t : ATMaster) (dz dp : Nat) : Prop :=
  ATMaster.wf CAP t ∧
    (ATMaster.contents CAP t).count 0 = (ATMaster.contents CAP s).count 0 + dz ∧
    t._has_data = (if dp = 0 then s._has_data else (s._has_data + 1) % UINT32_MOD)

/-- The framing mode and the byte of the latest arrival handled under CRLF
mode after a sequence of driver calls, from the mode `m` and the byte `l` held
before: an arrival replaces the byte only when the mode is CRLF, `set_line_mode`
replaces the mode, every other call leaves both. -/
def last_crlf_arrival : _AT_LINE_MODE → Nat → List Op → _AT_LINE_MODE × Nat
  | m, l, [] => (m, l)
  | m, l, Op.rx recv :: ops => last_crlf_arrival m (if m = AT_LINE_CRLF then recv else l) ops
  | _, l, Op.set_line_mode new_mode :: ops => last_crlf_arrival new_mode l ops
  | m, l, Op.process _ :: ops => last_crlf_arrival m l ops
  | m, l, Op.set_expected_length _ :: ops => last_crlf_arrival m l ops
  | m, l, Op.set_custom _ :: ops => last_crlf_arrival m l ops
  | m, l, Op.set_init _ :: ops => last_crlf_arrival m l ops

/-! ## Ring-buffer lemmas -/

theorem wrap_succ (CAP t : Nat) (h : t < CAP) :
    (if t + 1 ≥ CAP then 0 else t + 1) = (t + 1) % CAP := by
  split_ifs with h1
  · have : t + 1 = CAP := by omega
    rw [this, Nat.mod_self]
  · rw [Nat.mod_eq_of_lt (by omega)]

theorem ATMaster.skip_zero (CAP : Nat) (s : ATMaster) (h : s._buf_tail < CAP) :
    ATMaster.skip CAP s 0 = s := by
  simp [ATMaster.skip, Nat.mod_eq_of_lt h]

theorem ATMaster.buf_take_skip (CAP : Nat) (s : ATMaster) (k : Nat) (hc : 0 < CAP)
    (hk : k < s._buf_len) :
    ATMaster._buf_take CAP (ATMaster.skip CAP s k)
      = (ATMaster.peek CAP s k, ATMaster.skip CAP s (k + 1)) := by
  have hlt : (s._buf_tail + k) % CAP < CAP := Nat.mod_lt _ hc
  have h1 : s._buf_len - k > 0 := by omega
  simp only [ATMaster._buf_take, ATMaster.skip, ATMaster.peek, h1, if_true,
    wrap_succ CAP _ hlt, Nat.mod_add_mod, Nat.sub_sub, Nat.add_assoc, Nat.mod_mod]

theorem ATMaster.buf_take_eq (CAP : Nat) (s : ATMaster) (ht : s._buf_tail < CAP)
    (hl : 0 < s._buf_len) :
    ATMaster._buf_take CAP s = (ATMaster.peek CAP s 0, ATMaster.skip CAP s 1) := by
  have h := ATMaster.buf_take_skip CAP s 0 (by omega) hl
  rwa [ATMaster.skip_zero CAP s ht] at h

/-! ## The drain loop of `process` -/

theorem ATMaster.drain_some (CAP : Nat) (s : ATMaster) (hc : 0 < CAP) (m : Nat)
    (hm : m < s._buf_len) (hz : ATMaster.peek CAP s m = 0) :
    ∀ (n k : Nat) (d : Nat → Nat), m - k = n → k ≤ m →
      (∀ j, k ≤ j → j < m → ATMaster.peek CAP s j ≠ 0) →
      ATMaster.drain CAP (ATMaster.skip CAP s (k + 1)) (ATMaster.peek CAP s k) (some d) k
        = (ATMaster.skip CAP s (m + 1),
            some (fun j => if k ≤ j ∧ j < m then ATMaster.peek CAP s j else d j), m) := by
  intro n
  induction n with
  | zero =>
    intro k d hn hk _
    have hkm : k = m := by omega
    subst hkm
    rw [ATMaster.drain, if_pos hz]
    have : (fun j => if k ≤ j ∧ j < k then ATMaster.peek CAP s j else d j) = d := by
      funext j
      rw [if_neg (by omega)]
    rw [this]
  | succ n ih =>
    intro k d hn hk hnz
    have hne : ATMaster.peek CAP s k ≠ 0 := hnz k (Nat.le_refl k) (by omega)
    rw [ATMaster.drain, if_neg hne]
    rw [ATMaster.buf_take_skip CAP s (k + 1) hc (by omega)]
    rw [ih (k + 1) _ (by omega) (by omega) (fun j h1 h2 => hnz j (by omega) h2)]
    congr 3
    funext j
    by_cases h1 : k + 1 ≤ j ∧ j < m
    · rw [if_pos h1, if_pos ⟨by omega, h1.2⟩]
    · rw [if_neg h1]
      by_cases h2 : j = k
      · subst h2
        rw [if_pos ⟨Nat.le_refl j, by omega⟩]
        simp [store]
      · rw [if_neg (by omega)]
        simp [store, h2]

theorem ATMaster.drain_none (CAP : Nat) (s : ATMaster) (hc : 0 < CAP) (m : Nat)
    (hm : m < s._buf_len) (hz : ATMaster.peek CAP s m = 0) :
    ∀ (n k : Nat), m - k = n → k ≤ m →
      (∀ j, k ≤ j → j < m → ATMaster.peek CAP s j ≠ 0) →
      ATMaster.drain CAP (ATMaster.skip CAP s (k + 1)) (ATMaster.peek CAP s k) none 0
        = (ATMaster.skip CAP s (m + 1), none, 0) := by
  intro n
  induction n with
  | zero =>
    intro k hn hk _
    have hkm : k = m := by omega
    subst hkm
    rw [ATMaster.drain, if_pos hz]
  | succ n ih =>
    intro k hn hk hnz
    have hne : ATMaster.peek CAP s k ≠ 0 := hnz k (Nat.le_refl k) (by omega)
    rw [ATMaster.drain, if_neg hne]
    rw [ATMaster.buf_take_skip CAP s (k + 1) hc (by omega)]
    exact ih (k + 1) (by omega) (by omega) (fun j h1 h2 => hnz j (by omega) h2)

/-! ## Framed messages and `process` -/

theorem ATMaster.classify_snd (CAP : Nat) (s : ATMaster) :
    (ATMaster.classify CAP s).2 = s ∨
      (ATMaster.classify CAP s).2 = { s with _wait_init := false } := by
  unfold ATMaster.classify
  split_ifs <;> simp

theorem ATMaster.classify_buf (CAP : Nat) (s : ATMaster) :
    (ATMaster.classify CAP s).2._buf = s._buf ∧
      (ATMaster.classify CAP s).2._buf_tail = s._buf_tail ∧
      (ATMaster.classify CAP s).2._buf_len = s._buf_len ∧
      (ATMaster.classify CAP s).2._buf_head = s._buf_head ∧
      (ATMaster.classify CAP s).2._has_data = s._has_data := by
  rcases ATMaster.classify_snd CAP s with h | h <;> rw [h] <;> simp

theorem ATMaster.peek_congr (CAP : Nat) (s t : ATMaster) (hb : t._buf = s._buf)
    (ht : t._buf_tail = s._buf_tail) (j : Nat) :
    ATMaster.peek CAP t j = ATMaster.peek CAP s j := by
  simp [ATMaster.peek, hb, ht]

theorem ATMaster.framed_congr (CAP : Nat) (s t : ATMaster) (msg : List Nat)
    (hb : t._buf = s._buf) (ht : t._buf_tail = s._buf_tail) (hl : t._buf_len = s._buf_len)
    (hf : ATMaster.framed CAP s msg) : ATMaster.framed CAP t msg := by
  obtain ⟨h1, h2, h3, h4⟩ := hf
  refine ⟨by omega, fun j hj => ?_, h3, ?_⟩
  · rw [ATMaster.peek_congr CAP s t hb ht, h2 j hj]
  · rw [ATMaster.peek_congr CAP s t hb ht, h4]

theorem ATMaster.framed_drain_some (CAP : Nat) (s : ATMaster) (msg : List Nat) (d : Nat → Nat)
    (ht : s._buf_tail < CAP) (hf : ATMaster.framed CAP s msg) :
    ATMaster.drain CAP (ATMaster._buf_take CAP s).2 (ATMaster._buf_take CAP s).1 (some d) 0
      = (ATMaster.skip CAP s (msg.length + 1),
          some (fun j => if j < msg.length then msg.getD j 0 else d j), msg.length) := by
  obtain ⟨h1, h2, h3, h4⟩ := hf
  rw [ATMaster.buf_take_eq CAP s ht (by omega)]
  have hnz : ∀ j, 0 ≤ j → j < msg.length → ATMaster.peek CAP s j ≠ 0 := by
    intro j _ hj
    rw [h2 j hj, List.getD_eq_getElem _ _ hj]
    exact h3 _ (List.getElem_mem _)
  have h := ATMaster.drain_some CAP s (by omega) msg.length h1 h4 msg.length 0 d rfl
    (Nat.zero_le _) hnz
  simp only [Nat.zero_add] at h
  rw [h]
  congr 3
  funext j
  by_cases hj : j < msg.length
  · rw [if_pos ⟨Nat.zero_le _, hj⟩, if_pos hj, h2 j hj]
  · rw [if_neg (fun hh => hj hh.2), if_neg hj]

theorem ATMaster.framed_drain_none (CAP : Nat) (s : ATMaster) (msg : List Nat)
    (ht : s._buf_tail < CAP) (hf : ATMaster.framed CAP s msg) :
    ATMaster.drain CAP (ATMaster._buf_take CAP s).2 (ATMaster._buf_take CAP s).1 none 0
      = (ATMaster.skip CAP s (msg.length + 1), none, 0) := by
  obtain ⟨h1, h2, h3, h4⟩ := hf
  rw [ATMaster.buf_take_eq CAP s ht (by omega)]
  have hnz : ∀ j, 0 ≤ j → j < msg.length → ATMaster.peek CAP s j ≠ 0 := by
    intro j _ hj
    rw [h2 j hj, List.getD_eq_getElem _ _ hj]
    exact h3 _ (List.getElem_mem _)
  have h := ATMaster.drain_none CAP s (by omega) msg.length h1 h4 msg.length 0 rfl
    (Nat.zero_le _) hnz
  simpa using h

theorem ATMaster.process_framed_some (CAP : Nat) (s : ATMaster) (msg : List Nat) (d : Nat → Nat)
    (ht : s._buf_tail < CAP) (hd : s._has_data ≠ 0) (hf : ATMaster.framed CAP s msg) :
    ATMaster.process CAP s (some d)
      = (if msg.length = 0 then AT_RESPONSE_BLANKLINE
          else (ATMaster.classify CAP { s with _has_data := s._has_data - 1 }).1,
         ATMaster.skip CAP (ATMaster.classify CAP { s with _has_data := s._has_data - 1 }).2
           (msg.length + 1),
         some (delivered msg d)) := by
  obtain ⟨hb, htl, hl, -, -⟩ := ATMaster.classify_buf CAP { s with _has_data := s._has_data - 1 }
  have hf2 : ATMaster.framed CAP
      (ATMaster.classify CAP { s with _has_data := s._has_data - 1 }).2 msg :=
    ATMaster.framed_congr CAP s _ msg hb htl hl hf
  have hl2 : (ATMaster.classify CAP { s with _has_data := s._has_data - 1 }).2._buf_len ≠ 0 := by
    have := hf.1
    simp only [hl]
    omega
  have ht2 : (ATMaster.classify CAP { s with _has_data := s._has_data - 1 }).2._buf_tail < CAP := by
    simp only [htl]
    exact ht
  unfold ATMaster.process
  rw [if_neg hd]
  simp only [hl2, ne_eq, not_false_eq_true, if_true]
  rw [ATMaster.framed_drain_some CAP _ msg d ht2 hf2]
  rfl

theorem ATMaster.process_framed_none (CAP : Nat) (s : ATMaster) (msg : List Nat)
    (ht : s._buf_tail < CAP) (hd : s._has_data ≠ 0) (hf : ATMaster.framed CAP s msg) :
    ATMaster.process CAP s none
      = (AT_RESPONSE_BLANKLINE,
         ATMaster.skip CAP (ATMaster.classify CAP { s with _has_data := s._has_data - 1 }).2
           (msg.length + 1),
         none) := by
  obtain ⟨hb, htl, hl, -, -⟩ := ATMaster.classify_buf CAP { s with _has_data := s._has_data - 1 }
  have hf2 : ATMaster.framed CAP
      (ATMaster.classify CAP { s with _has_data := s._has_data - 1 }).2 msg :=
    ATMaster.framed_congr CAP s _ msg hb htl hl hf
  have hl2 : (ATMaster.classify CAP { s with _has_data := s._has_data - 1 }).2._buf_len ≠ 0 := by
    have := hf.1
    simp only [hl]
    omega
  have ht2 : (ATMaster.classify CAP { s with _has_data := s._has_data - 1 }).2._buf_tail < CAP := by
    simp only [htl]
    exact ht
  unfold ATMaster.process
  rw [if_neg hd]
  simp only [hl2, ne_eq, not_false_eq_true, if_true]
  rw [ATMaster.framed_drain_none CAP _ msg ht2 hf2]
  rfl

/-! ## Adding to the ring buffer -/

theorem mod_ne_of_lt (CAP a b : Nat) (h1 : a < b) (h2 : b < a + CAP) : a % CAP ≠ b % CAP := by
  intro h
  have h3 : (b - a) % CAP = 0 := Nat.sub_mod_eq_zero_of_mod_eq h.symm
  rw [Nat.mod_eq_of_lt (by omega)] at h3
  omega

theorem ATMaster.contents_length (CAP : Nat) (s : ATMaster) :
    (ATMaster.contents CAP s).length = s._buf_len := by
  simp [ATMaster.contents]

theorem ATMaster.contents_getD (CAP : Nat) (s : ATMaster) (j : Nat) (hj : j < s._buf_len) :
    (ATMaster.contents CAP s).getD j 0 = ATMaster.peek CAP s j := by
  rw [List.getD_eq_getElem _ _ (by rw [ATMaster.contents_length]; exact hj)]
  simp [ATMaster.contents]

theorem ATMaster.buf_add_full (CAP : Nat) (s : ATMaster) (v : Nat) (h : ¬ s._buf_len < CAP) :
    ATMaster._buf_add CAP s v = s := by
  simp [ATMaster._buf_add, h]

theorem ATMaster.buf_add_fields (CAP : Nat) (s : ATMaster) (v : Nat) :
    (ATMaster._buf_add CAP s v)._buf_tail = s._buf_tail ∧
      (ATMaster._buf_add CAP s v)._has_data = s._has_data ∧
      (ATMaster._buf_add CAP s v)._buf_message_len = s._buf_message_len ∧
      (ATMaster._buf_add CAP s v)._last_received_char = s._last_received_char ∧
      ATMaster.regs (ATMaster._buf_add CAP s v) = ATMaster.regs s := by
  unfold ATMaster._buf_add
  split_ifs <;> simp [ATMaster.regs]

theorem ATMaster.buf_add_len (CAP : Nat) (s : ATMaster) (v : Nat) (h : s._buf_len < CAP) :
    (ATMaster._buf_add CAP s v)._buf_len = s._buf_len + 1 := by
  simp [ATMaster._buf_add, h]

theorem ATMaster.buf_add_eq (CAP : Nat) (s : ATMaster) (v : Nat) (h1 : s._buf_head < CAP)
    (h : s._buf_len < CAP) :
    ATMaster._buf_add CAP s v =
      { s with
        _buf := store s._buf s._buf_head v
        _buf_len := s._buf_len + 1
        _buf_head := (s._buf_head + 1) % CAP } := by
  simp only [ATMaster._buf_add, if_pos h, wrap_succ CAP _ h1]

theorem ATMaster.buf_add_wf (CAP : Nat) (s : ATMaster) (v : Nat) (hwf : ATMaster.wf CAP s) :
    ATMaster.wf CAP (ATMaster._buf_add CAP s v) := by
  obtain ⟨h1, h2, h3, h4⟩ := hwf
  by_cases h : s._buf_len < CAP
  · rw [ATMaster.buf_add_eq CAP s v h1 h]
    refine ⟨Nat.mod_lt _ (by omega), h2, by simp only; omega, ?_⟩
    simp only
    rw [h4, Nat.mod_add_mod, Nat.add_assoc]
  · rw [ATMaster.buf_add_full CAP s v h]
    exact ⟨h1, h2, h3, h4⟩

theorem ATMaster.buf_add_contents (CAP : Nat) (s : ATMaster) (v : Nat)
    (hwf : ATMaster.wf CAP s) (h : s._buf_len < CAP) :
    ATMaster.contents CAP (ATMaster._buf_add CAP s v) = ATMaster.contents CAP s ++ [v] := by
  obtain ⟨h1, h2, h3, h4⟩ := hwf
  rw [ATMaster.buf_add_eq CAP s v h1 h]
  simp only [ATMaster.contents, List.range_succ, List.map_append,
    List.map_cons, List.map_nil]
  congr 1
  · apply List.map_congr_left
    intro j hj
    rw [List.mem_range] at hj
    simp only [ATMaster.peek, store]
    rw [if_neg]
    rw [h4]
    exact mod_ne_of_lt CAP _ _ (by omega) (by omega)
  · simp [ATMaster.peek, store, h4]

theorem getD_append_length (msg rest : List Nat) (x d : Nat) :
    (msg ++ x :: rest).getD msg.length d = x := by
  induction msg with
  | nil => rfl
  | cons a l ih => simpa using ih

theorem getD_append_lt (msg rest : List Nat) (d : Nat) :
    ∀ j, j < msg.length → (msg ++ rest).getD j d = msg.getD j d := by
  induction msg with
  | nil => intro j hj; simp at hj
  | cons a l ih =>
    intro j hj
    cases j with
    | zero => rfl
    | succ j => simpa using ih j (by simpa using hj)

theorem ATMaster.framed_of_contents (CAP : Nat) (s : ATMaster) (msg rest : List Nat)
    (hc : ATMaster.contents CAP s = msg ++ 0 :: rest) (hz : ∀ b ∈ msg, b ≠ 0) :
    ATMaster.framed CAP s msg := by
  have hlen : s._buf_len = msg.length + (rest.length + 1) := by
    rw [← ATMaster.contents_length CAP s, hc]
    simp
  refine ⟨by omega, fun j hj => ?_, hz, ?_⟩
  · rw [← ATMaster.contents_getD CAP s j (by omega), hc]
    exact getD_append_lt msg _ 0 j hj
  · rw [← ATMaster.contents_getD CAP s _ (by omega), hc]
    exact getD_append_length msg rest 0 0

/-! ## The CRLF framer -/

theorem ATMaster.rx_crlf_data (CAP : Nat) (s : ATMaster) (b : Nat)
    (hm : s._line_mode = AT_LINE_CRLF) (hb : b ≠ 13) (hl : s._last_received_char ≠ 13) :
    ATMaster._rx_irq CAP s b =
      { ATMaster._buf_add CAP s b with
        _buf_message_len := ((ATMaster._buf_add CAP s b)._buf_message_len + 1) % UINT32_MOD
        _last_received_char := b } := by
  unfold ATMaster._rx_irq
  rw [hm]
  simp [hb, hl]

theorem ATMaster.rx_crlf_cr (CAP : Nat) (s : ATMaster)
    (hm : s._line_mode = AT_LINE_CRLF) (hl : s._last_received_char ≠ 13) :
    ATMaster._rx_irq CAP s 13 = { s with _last_received_char := 13 } := by
  unfold ATMaster._rx_irq
  rw [hm]
  simp [hl, hm]

theorem ATMaster.rx_crlf_lf (CAP : Nat) (s : ATMaster)
    (hm : s._line_mode = AT_LINE_CRLF) (hl : s._last_received_char = 13) :
    ATMaster._rx_irq CAP s 10 =
      { ATMaster._buf_add CAP s 0 with
        _has_data := ((ATMaster._buf_add CAP s 0)._has_data + 1) % UINT32_MOD
        _buf_message_len := 0
        _last_received_char := 10 } := by
  unfold ATMaster._rx_irq
  rw [hm]
  simp [hl]

theorem ATMaster.feed_append (CAP : Nat) (s : ATMaster) (a b : List Nat) :
    ATMaster.feed CAP s (a ++ b) = ATMaster.feed CAP (ATMaster.feed CAP s a) b := by
  simp [ATMaster.feed, List.foldl_append]

theorem ATMaster.feed_cons (CAP : Nat) (s : ATMaster) (a : Nat) (b : List Nat) :
    ATMaster.feed CAP s (a :: b) = ATMaster.feed CAP (ATMaster._rx_irq CAP s a) b := rfl

theorem ATMaster.feed_crlf_payload (CAP : Nat) (payload : List Nat) :
    ∀ s : ATMaster, s._line_mode = AT_LINE_CRLF → ATMaster.wf CAP s →
      s._last_received_char ≠ 13 → (∀ b ∈ payload, b ≠ 13) →
      s._buf_len + payload.length ≤ CAP →
      ATMaster.wf CAP (ATMaster.feed CAP s payload) ∧
      ATMaster.contents CAP (ATMaster.feed CAP s payload) = ATMaster.contents CAP s ++ payload ∧
      (ATMaster.feed CAP s payload)._buf_tail = s._buf_tail ∧
      (ATMaster.feed CAP s payload)._has_data = s._has_data ∧
      (ATMaster.feed CAP s payload)._last_received_char ≠ 13 ∧
      ATMaster.regs (ATMaster.feed CAP s payload) = ATMaster.regs s := by
  induction payload with
  | nil =>
    intro s _ hwf hl _ _
    exact ⟨hwf, by simp [ATMaster.feed], rfl, rfl, hl, rfl⟩
  | cons b rest ih =>
    intro s hm hwf hl hp hroom
    have hb : b ≠ 13 := hp b (List.mem_cons_self _ _)
    have hlen : s._buf_len < CAP := by
      simp only [List.length_cons] at hroom
      omega
    obtain ⟨f1, f2, f3, f4, f5⟩ := ATMaster.buf_add_fields CAP s b
    have hregs : ATMaster.regs (ATMaster._rx_irq CAP s b) = ATMaster.regs s := by
      rw [ATMaster.rx_crlf_data CAP s b hm hb hl, ← f5]
      rfl
    have hm1 : (ATMaster._rx_irq CAP s b)._line_mode = AT_LINE_CRLF := by
      have := congrArg (fun r => r.2.2.2.2.2.2) hregs
      simp only [ATMaster.regs] at this
      rw [this, hm]
    have hwf1 : ATMaster.wf CAP (ATMaster._rx_irq CAP s b) := by
      rw [ATMaster.rx_crlf_data CAP s b hm hb hl]
      exact ATMaster.buf_add_wf CAP s b hwf
    have hc1 : ATMaster.contents CAP (ATMaster._rx_irq CAP s b)
        = ATMaster.contents CAP s ++ [b] := by
      rw [ATMaster.rx_crlf_data CAP s b hm hb hl, ← ATMaster.buf_add_contents CAP s b hwf hlen]
      rfl
    have hl1 : (ATMaster._rx_irq CAP s b)._last_received_char ≠ 13 := by
      rw [ATMaster.rx_crlf_data CAP s b hm hb hl]
      exact hb
    have hlen1 : (ATMaster._rx_irq CAP s b)._buf_len = s._buf_len + 1 := by
      rw [ATMaster.rx_crlf_data CAP s b hm hb hl, ← ATMaster.buf_add_len CAP s b hlen]
    have ht1 : (ATMaster._rx_irq CAP s b)._buf_tail = s._buf_tail := by
      rw [ATMaster.rx_crlf_data CAP s b hm hb hl, ← f1]
    have hd1 : (ATMaster._rx_irq CAP s b)._has_data = s._has_data := by
      rw [ATMaster.rx_crlf_data CAP s b hm hb hl, ← f2]
    obtain ⟨g1, g2, g3, g4, g5, g6⟩ := ih (ATMaster._rx_irq CAP s b) hm1 hwf1 hl1
      (fun x hx => hp x (List.mem_cons_of_mem _ hx))
      (by simp only [List.length_cons] at hroom; omega)
    rw [ATMaster.feed_cons]
    refine ⟨g1, ?_, by rw [g3, ht1], by rw [g4, hd1], g5, by rw [g6, hregs]⟩
    rw [g2, hc1, List.append_assoc]
    rfl

theorem ATMaster.feed_crlf_line (CAP : Nat) (payload : List Nat) (s : ATMaster)
    (hm : s._line_mode = AT_LINE_CRLF) (hwf : ATMaster.wf CAP s)
    (hl : s._last_received_char ≠ 13) (hp : ∀ b ∈ payload, b ≠ 13)
    (hroom : s._buf_len + payload.length + 1 ≤ CAP) :
    ATMaster.wf CAP (ATMaster.feed CAP s (payload ++ [13, 10])) ∧
    ATMaster.contents CAP (ATMaster.feed CAP s (payload ++ [13, 10]))
      = ATMaster.contents CAP s ++ payload ++ [0] ∧
    (ATMaster.feed CAP s (payload ++ [13, 10]))._buf_tail = s._buf_tail ∧
    (ATMaster.feed CAP s (payload ++ [13, 10]))._has_data = (s._has_data + 1) % UINT32_MOD ∧
    (ATMaster.feed CAP s (payload ++ [13, 10]))._last_received_char = 10 ∧
    (ATMaster.feed CAP s (payload ++ [13, 10]))._buf_message_len = 0 ∧
    ATMaster.regs (ATMaster.feed CAP s (payload ++ [13, 10])) = ATMaster.regs s := by
  obtain ⟨g1, g2, g3, g4, g5, g6⟩ :=
    ATMaster.feed_crlf_payload CAP payload s hm hwf hl hp (by omega)
  have hm1 : (ATMaster.feed CAP s payload)._line_mode = AT_LINE_CRLF := by
    have := congrArg (fun r => r.2.2.2.2.2.2) g6
    simp only [ATMaster.regs] at this
    rw [this, hm]
  have hlen : (ATMaster.feed CAP s payload)._buf_len < CAP := by
    rw [← ATMaster.contents_length CAP, g2, List.length_append, ATMaster.contents_length]
    omega
  have heq : ATMaster.feed CAP s (payload ++ [13, 10]) =
      { ATMaster._buf_add CAP { ATMaster.feed CAP s payload with _last_received_char := 13 } 0 with
        _has_data := ((ATMaster._buf_add CAP
          { ATMaster.feed CAP s payload with _last_received_char := 13 } 0)._has_data + 1)
            % UINT32_MOD
        _buf_message_len := 0
        _last_received_char := 10 } := by
    rw [ATMaster.feed_append, ATMaster.feed_cons, ATMaster.feed_cons]
    rw [ATMaster.rx_crlf_cr CAP _ hm1 g5]
    rw [ATMaster.rx_crlf_lf CAP { ATMaster.feed CAP s payload with _last_received_char := 13 }
      hm1 rfl]
    rfl
  rw [heq]
  have hwf2 : ATMaster.wf CAP { ATMaster.feed CAP s payload with _last_received_char := 13 } := g1
  have hc2 : ATMaster.contents CAP { ATMaster.feed CAP s payload with _last_received_char := 13 }
      = ATMaster.contents CAP s ++ payload := g2
  obtain ⟨f1, f2, f3, f4, f5⟩ :=
    ATMaster.buf_add_fields CAP { ATMaster.feed CAP s payload with _last_received_char := 13 } 0
  refine ⟨ATMaster.buf_add_wf CAP _ 0 hwf2, ?_, ?_, ?_, rfl, rfl, ?_⟩
  · rw [← hc2, ← ATMaster.buf_add_contents CAP _ 0 hwf2 hlen]
    rfl
  · show (ATMaster._buf_add CAP _ 0)._buf_tail = _
    rw [f1]
    exact g3
  · show ((ATMaster._buf_add CAP _ 0)._has_data + 1) % UINT32_MOD = _
    rw [f2]
    show ((ATMaster.feed CAP s payload)._has_data + 1) % UINT32_MOD = _
    rw [g4]
  · rw [← g6]
    exact f5

/-! ## The freshly constructed driver -/

theorem ATMaster.fresh_wf (CAP : Nat) (hc : 0 < CAP) (ok err im cm : List Nat) :
    ATMaster.wf CAP (ATMaster.fresh ok err im cm) :=
  ⟨hc, hc, Nat.zero_le _, (Nat.zero_mod CAP).symm⟩

theorem ATMaster.fresh_contents (CAP : Nat) (ok err im cm : List Nat) :
    ATMaster.contents CAP (ATMaster.fresh ok err im cm) = [] := rfl

theorem range_map_getD (l : List Nat) :
    (List.range l.length).map (fun j => l.getD j 0) = l := by
  apply List.ext_getElem
  · simp
  · intro n h1 h2
    rw [List.getElem_map, List.getElem_range]
    exact List.getD_eq_getElem _ _ h2

theorem delivered_spec (msg : List Nat) (d : Nat → Nat) :
    (List.range (msg.length + 1)).map (delivered msg d) = msg ++ [0] ∧
      ∀ j, msg.length < j → delivered msg d j = d j := by
  constructor
  · rw [List.range_succ, List.map_append]
    congr 1
    · conv_rhs => rw [← range_map_getD msg]
      apply List.map_congr_left
      intro j hj
      rw [List.mem_range] at hj
      simp [delivered, store, hj, Nat.ne_of_lt hj]
    · simp [delivered, store]
  · intro j hj
    have h1 : ¬ j = msg.length := by omega
    have h2 : ¬ j < msg.length := by omega
    simp [delivered, store, h1, h2]

/-! ## What the operations leave alone -/

theorem ATMaster.buf_take_fields (CAP : Nat) (s : ATMaster) :
    (ATMaster._buf_take CAP s).2._has_data = s._has_data ∧
      (ATMaster._buf_take CAP s).2._buf = s._buf ∧
      (ATMaster._buf_take CAP s).2._buf_message_len = s._buf_message_len ∧
      (ATMaster._buf_take CAP s).2._last_received_char = s._last_received_char ∧
      ATMaster.regs (ATMaster._buf_take CAP s).2 = ATMaster.regs s := by
  unfold ATMaster._buf_take
  split_ifs <;> simp [ATMaster.regs]

theorem ATMaster.drain_fields (CAP : Nat) (s : ATMaster) (c : Nat) (d : Dest) (i : Nat) :
    (ATMaster.drain CAP s c d i).1._has_data = s._has_data ∧
      (ATMaster.drain CAP s c d i).1._buf = s._buf ∧
      (ATMaster.drain CAP s c d i).1._buf_message_len = s._buf_message_len ∧
      (ATMaster.drain CAP s c d i).1._last_received_char = s._last_received_char ∧
      ATMaster.regs (ATMaster.drain CAP s c d i).1 = ATMaster.regs s := by
  induction s, c, d, i using ATMaster.drain.induct CAP with
  | case1 s d i => rw [ATMaster.drain.eq_def]; simp
  | case2 s c i h d ih =>
    obtain ⟨f1, f2, f3, f4, f5⟩ := ATMaster.buf_take_fields CAP s
    rw [ATMaster.drain, if_neg h]
    exact ⟨ih.1.trans f1, ih.2.1.trans f2, ih.2.2.1.trans f3, ih.2.2.2.1.trans f4,
      ih.2.2.2.2.trans f5⟩
  | case3 s c i h ih =>
    obtain ⟨f1, f2, f3, f4, f5⟩ := ATMaster.buf_take_fields CAP s
    rw [ATMaster.drain, if_neg h]
    exact ⟨ih.1.trans f1, ih.2.1.trans f2, ih.2.2.1.trans f3, ih.2.2.2.1.trans f4,
      ih.2.2.2.2.trans f5⟩

theorem ATMaster.drain_none_offset (CAP : Nat) (s : ATMaster) (c i : Nat) :
    (ATMaster.drain CAP s c none i).2.2 = i ∧ (ATMaster.drain CAP s c none i).2.1 = none := by
  generalize hd : (none : Dest) = d
  induction s, c, d, i using ATMaster.drain.induct CAP with
  | case1 s d i => rw [ATMaster.drain.eq_def]; simp [hd]
  | case2 s c i h d ih => simp at hd
  | case3 s c i h ih =>
    rw [ATMaster.drain, if_neg h]
    exact ih rfl

/-- With a null destination the write offset stays 0, so `process` reports a
blank line for every pending message. -/
theorem ATMaster.process_null_kind (CAP : Nat) (s : ATMaster) (hd : s._has_data ≠ 0) :
    (ATMaster.process CAP s none).1 = AT_RESPONSE_BLANKLINE := by
  unfold ATMaster.process
  rw [if_neg hd]
  simp only
  split_ifs with h1 h2 h2
  · rfl
  · exact absurd (ATMaster.drain_none_offset CAP _ _ 0).1 h2
  · rfl
  · exact absurd rfl h2

/-- Every call of `process` on a pending message lowers the pending counter by
one, with or without a destination. -/
theorem ATMaster.process_pending (CAP : Nat) (s : ATMaster) (dest : Dest) (hd : s._has_data ≠ 0) :
    (ATMaster.process CAP s dest).2.1._has_data = s._has_data - 1 := by
  obtain ⟨-, -, -, -, h5⟩ := ATMaster.classify_buf CAP { s with _has_data := s._has_data - 1 }
  unfold ATMaster.process
  rw [if_neg hd]
  simp only
  split_ifs with h1
  · show (ATMaster.drain CAP _ _ dest 0).1._has_data = _
    rw [(ATMaster.drain_fields CAP _ _ dest 0).1, (ATMaster.buf_take_fields CAP _).1, h5]
  · exact h5

theorem ATMaster.peek_skip (CAP : Nat) (s : ATMaster) (n j : Nat) :
    ATMaster.peek CAP (ATMaster.skip CAP s n) j = ATMaster.peek CAP s (n + j) := by
  simp [ATMaster.peek, ATMaster.skip, Nat.mod_add_mod, Nat.add_assoc]

theorem ATMaster.contents_skip (CAP : Nat) (s : ATMaster) (n : Nat) :
    ATMaster.contents CAP (ATMaster.skip CAP s n) = (ATMaster.contents CAP s).drop n := by
  apply List.ext_getElem
  · simp [ATMaster.contents, ATMaster.skip]
  · intro j h1 h2
    simp only [ATMaster.contents, List.getElem_map, List.getElem_range, List.getElem_drop]
    exact ATMaster.peek_skip CAP s n j

theorem ATMaster.contents_congr (CAP : Nat) (s t : ATMaster) (hb : t._buf = s._buf)
    (ht : t._buf_tail = s._buf_tail) (hl : t._buf_len = s._buf_len) :
    ATMaster.contents CAP t = ATMaster.contents CAP s := by
  simp only [ATMaster.contents, hl]
  apply List.map_congr_left
  intro j _
  exact ATMaster.peek_congr CAP s t hb ht j

theorem ATMaster.framed_nil (CAP : Nat) (s : ATMaster) (hl : 0 < s._buf_len)
    (ht : s._buf_tail < CAP) (hz : s._buf s._buf_tail = 0) : ATMaster.framed CAP s [] := by
  refine ⟨hl, fun j hj => absurd hj (Nat.not_lt_zero j), fun b hb => absurd hb (List.not_mem_nil b),
    ?_⟩
  simp [ATMaster.peek, Nat.mod_eq_of_lt ht, hz]

/-! ## `buf_compare` -/

theorem ATMaster.buf_compare_loop_spec (CAP : Nat) (s : ATMaster) (hc : 0 < CAP) :
    ∀ (value : List Nat) (i : Nat), (∀ b ∈ value, b ≠ 0) →
      (ATMaster.buf_compare_loop CAP s value i ((s._buf_tail + i) % CAP)
          = some (i + value.length) ∧
        ∀ j, j < value.length → i + j < s._buf_len ∧
          value.getD j 0 = ATMaster.peek CAP s (i + j)) ∨
      (ATMaster.buf_compare_loop CAP s value i ((s._buf_tail + i) % CAP) = none ∧
        ¬ ∀ j, j < value.length → i + j < s._buf_len ∧
          value.getD j 0 = ATMaster.peek CAP s (i + j)) := by
  intro value
  induction value with
  | nil =>
    intro i _
    left
    exact ⟨rfl, fun j hj => absurd hj (Nat.not_lt_zero j)⟩
  | cons v rest ih =>
    intro i hz
    have hv : v ≠ 0 := hz v (List.mem_cons_self _ _)
    have hrest : ∀ b ∈ rest, b ≠ 0 := fun b hb => hz b (List.mem_cons_of_mem _ hb)
    unfold ATMaster.buf_compare_loop
    rw [if_neg hv]
    by_cases h1 : i ≥ s._buf_len
    · rw [if_pos h1]
      right
      refine ⟨rfl, fun h => ?_⟩
      have := (h 0 (by simp)).1
      omega
    · rw [if_neg h1]
      by_cases h2 : v ≠ s._buf ((s._buf_tail + i) % CAP)
      · rw [if_pos h2]
        right
        refine ⟨rfl, fun h => ?_⟩
        have := (h 0 (by simp)).2
        simp [ATMaster.peek] at this
        exact h2 this
      · rw [if_neg h2]
        rw [wrap_succ CAP _ (Nat.mod_lt _ hc), Nat.mod_add_mod, Nat.add_assoc]
        have h2' : v = s._buf ((s._buf_tail + i) % CAP) := not_not.mp h2
        rcases ih (i + 1) hrest with ⟨e, h⟩ | ⟨e, h⟩
        · left
          refine ⟨by rw [e, List.length_cons]; congr 1; omega, fun j hj => ?_⟩
          cases j with
          | zero => exact ⟨by omega, by simpa [ATMaster.peek] using h2'⟩
          | succ j =>
            have := h j (by simpa using hj)
            refine ⟨by omega, ?_⟩
            rw [List.getD_cons_succ, this.2]
            congr 1
            omega
        · right
          refine ⟨e, fun hall => h (fun j hj => ?_)⟩
          have := hall (j + 1) (by simpa using hj)
          refine ⟨by omega, ?_⟩
          rw [List.getD_cons_succ] at this
          rw [this.2]
          congr 1
          omega

/-- What `buf_compare` decides, for a ring with `tail < CAP` and a
null-terminated `value`. -/
theorem ATMaster.buf_compare_iff (CAP : Nat) (s : ATMaster) (ht : s._buf_tail < CAP)
    (value : List Nat) (exact_length : Bool) (hz : ∀ b ∈ value, b ≠ 0) :
    ATMaster.buf_compare CAP s value exact_length = true ↔
      (∀ j, j < value.length → j < s._buf_len ∧ value.getD j 0 = ATMaster.peek CAP s j) ∧
        (exact_length = true → s._buf_len ≤ value.length) := by
  have h := ATMaster.buf_compare_loop_spec CAP s (by omega) value 0 hz
  simp only [Nat.add_zero, Nat.zero_add, Nat.mod_eq_of_lt ht] at h
  unfold ATMaster.buf_compare
  rcases h with ⟨e, h⟩ | ⟨e, h⟩
  · rw [e]
    constructor
    · intro hres
      refine ⟨h, fun hex => ?_⟩
      subst hex
      by_contra hgt
      have hgt' : s._buf_len > value.length := by omega
      simp [hgt'] at hres
    · rintro ⟨_, hex⟩
      cases exact_length with
      | false => rfl
      | true =>
        have hle : ¬ s._buf_len > value.length := by
          have := hex rfl
          omega
        simp [hle]
  · rw [e]
    simp only [Bool.false_eq_true, false_iff, not_and]
    intro hall
    exact absurd hall h

theorem prefix_iff_getD (p msg : List Nat) :
    p <+: msg ↔ p.length ≤ msg.length ∧ ∀ j, j < p.length → p.getD j 0 = msg.getD j 0 := by
  constructor
  · rintro ⟨t, rfl⟩
    exact ⟨by simp, fun j hj => (getD_append_lt p t 0 j hj).symm⟩
  · rintro ⟨h1, h2⟩
    rw [List.prefix_iff_eq_take]
    apply List.ext_getElem
    · simp [h1]
    · intro n hn1 hn2
      have := h2 n hn1
      rw [List.getD_eq_getElem _ _ hn1, List.getD_eq_getElem _ _ (by omega)] at this
      rw [this, List.getElem_take]

/-- On a framed message `buf_compare` without the exact flag is the test
"the message starts with `value`"; the bytes behind the sentinel play no part. -/
theorem ATMaster.buf_compare_framed (CAP : Nat) (s : ATMaster) (ht : s._buf_tail < CAP)
    (msg value : List Nat) (hf : ATMaster.framed CAP s msg) (hz : ∀ b ∈ value, b ≠ 0) :
    ATMaster.buf_compare CAP s value false = value.isPrefixOf msg := by
  obtain ⟨f1, f2, f3, f4⟩ := hf
  rw [Bool.eq_iff_iff, ATMaster.buf_compare_iff CAP s ht value false hz, List.isPrefixOf_iff_prefix,
    prefix_iff_getD]
  simp only [Bool.false_eq_true, false_implies, and_true]
  constructor
  · intro h
    have hle : value.length ≤ msg.length := by
      by_contra hlt
      have h1 := (h msg.length (by omega)).2
      rw [f4, List.getD_eq_getElem _ _ (by omega)] at h1
      exact hz _ (List.getElem_mem _) h1
    exact ⟨hle, fun j hj => by rw [(h j hj).2, f2 j (by omega)]⟩
  · rintro ⟨hle, h⟩ j hj
    exact ⟨by omega, by rw [h j hj, f2 j (by omega)]⟩

/-! ## Sequences of driver operations -/

theorem ATMaster.rx_regs (CAP : Nat) (s : ATMaster) (b : Nat) :
    ATMaster.regs (ATMaster._rx_irq CAP s b) = ATMaster.regs s := by
  unfold ATMaster._rx_irq
  split
  · simp only
    split_ifs
    · exact (ATMaster.buf_add_fields CAP s _).2.2.2.2
    · rfl
    · exact (ATMaster.buf_add_fields CAP s _).2.2.2.2
    · exact (ATMaster.buf_add_fields CAP s _).2.2.2.2
  · split_ifs
    · exact (ATMaster.buf_add_fields CAP s _).2.2.2.2
    · exact (ATMaster.buf_add_fields CAP s _).2.2.2.2
  · simp only
    split_ifs
    · exact ((ATMaster.buf_add_fields CAP _ 0).2.2.2.2).trans
        (ATMaster.buf_add_fields CAP s _).2.2.2.2
    · exact (ATMaster.buf_add_fields CAP s _).2.2.2.2

theorem ATMaster.regs_wait_init (s t : ATMaster) (h : ATMaster.regs t = ATMaster.regs s) :
    t._wait_init = s._wait_init :=
  congrArg (fun r => r.2.2.2.2.1) h

theorem ATMaster.process_wait_init (CAP : Nat) (s : ATMaster) (dest : Dest) :
    (ATMaster.process CAP s dest).2.1._wait_init
      = (ATMaster.classify CAP { s with _has_data := s._has_data - 1 }).2._wait_init ∨
    (ATMaster.process CAP s dest).2.1 = s := by
  by_cases h0 : s._has_data = 0
  · right
    simp only [ATMaster.process, if_pos h0]
  · left
    by_cases hl : (ATMaster.classify CAP { s with _has_data := s._has_data - 1 }).2._buf_len = 0
    · simp only [ATMaster.process, if_neg h0, hl, ne_eq, not_true_eq_false, if_false]
    · simp only [ATMaster.process, if_neg h0, hl, ne_eq, not_false_eq_true, if_true]
      exact ATMaster.regs_wait_init _ _
        ((ATMaster.drain_fields CAP _ _ dest 0).2.2.2.2.trans
          (ATMaster.buf_take_fields CAP _).2.2.2.2)

theorem ATMaster.classify_disarmed (CAP : Nat) (s : ATMaster) (h : s._wait_init = false) :
    (ATMaster.classify CAP s).1 ≠ AT_RESPONSE_INIT ∧ (ATMaster.classify CAP s).2 = s := by
  unfold ATMaster.classify
  simp only [h, Bool.false_and, Bool.false_eq_true, if_false]
  split_ifs <;> simp

theorem ATMaster.process_kind (CAP : Nat) (s : ATMaster) (dest : Dest) :
    (ATMaster.process CAP s dest).1 = AT_RESPONSE_NONE ∨
    (ATMaster.process CAP s dest).1 = AT_RESPONSE_BLANKLINE ∨
    (ATMaster.process CAP s dest).1
      = (ATMaster.classify CAP { s with _has_data := s._has_data - 1 }).1 := by
  by_cases h0 : s._has_data = 0
  · left
    simp only [ATMaster.process, if_pos h0]
  · right
    simp only [ATMaster.process, if_neg h0]
    split_ifs <;> simp

theorem ATMaster.process_disarmed (CAP : Nat) (s : ATMaster) (dest : Dest)
    (h : s._wait_init = false) :
    (ATMaster.process CAP s dest).1 ≠ AT_RESPONSE_INIT ∧
      (ATMaster.process CAP s dest).2.1._wait_init = false := by
  have hc := ATMaster.classify_disarmed CAP { s with _has_data := s._has_data - 1 } h
  constructor
  · rcases ATMaster.process_kind CAP s dest with e | e | e
    · rw [e]; decide
    · rw [e]; decide
    · rw [e]; exact hc.1
  · rcases ATMaster.process_wait_init CAP s dest with e | e
    · rw [e, hc.2]
      exact h
    · rw [e]
      exact h

theorem ATMaster.set_line_mode_wait_init (CAP : Nat) (s : ATMaster) (m : _AT_LINE_MODE) :
    (ATMaster.set_line_mode CAP s m)._wait_init = s._wait_init := by
  unfold ATMaster.set_line_mode
  simp only
  split_ifs
  · exact ATMaster.regs_wait_init { s with _line_mode := m } _
      (ATMaster.buf_add_fields CAP { s with _line_mode := m } 0).2.2.2.2
  · rfl
  · rfl

theorem ATMaster.run_disarmed (CAP : Nat) (ops : List Op) :
    ∀ s : ATMaster, s._wait_init = false → (∀ op ∈ ops, Op.arms op = false) →
      (∀ k ∈ (ATMaster.run CAP s ops).2, k ≠ AT_RESPONSE_INIT) ∧
        (ATMaster.run CAP s ops).1._wait_init = false := by
  induction ops with
  | nil =>
    intro s h _
    exact ⟨fun k hk => absurd hk (List.not_mem_nil k), h⟩
  | cons op ops ih =>
    intro s h hops
    have hop := hops op (List.mem_cons_self _ _)
    have hstep : (∀ k ∈ (ATMaster.step CAP s op).2, k ≠ AT_RESPONSE_INIT) ∧
        (ATMaster.step CAP s op).1._wait_init = false := by
      cases op with
      | rx recv =>
        exact ⟨fun k hk => absurd hk (List.not_mem_nil k),
          (ATMaster.regs_wait_init _ _ (ATMaster.rx_regs CAP s recv)).trans h⟩
      | process dest =>
        refine ⟨fun k hk => ?_, (ATMaster.process_disarmed CAP s dest h).2⟩
        rw [List.mem_singleton.mp hk]
        exact (ATMaster.process_disarmed CAP s dest h).1
      | set_line_mode m =>
        exact ⟨fun k hk => absurd hk (List.not_mem_nil k),
          (ATMaster.set_line_mode_wait_init CAP s m).trans h⟩
      | set_expected_length n => exact ⟨fun k hk => absurd hk (List.not_mem_nil k), h⟩
      | set_custom c => exact ⟨fun k hk => absurd hk (List.not_mem_nil k), h⟩
      | set_init p => simp [Op.arms] at hop
    obtain ⟨i1, i2⟩ := ih (ATMaster.step CAP s op).1 hstep.2
      (fun o ho => hops o (List.mem_cons_of_mem _ ho))
    refine ⟨fun k hk => ?_, i2⟩
    rcases List.mem_append.mp hk with hk | hk
    · exact hstep.1 k hk
    · exact i1 k hk

/-! ## The LENGTH framer -/

theorem ATMaster.regs_expected_length (s t : ATMaster) (h : ATMaster.regs t = ATMaster.regs s) :
    t.expected_length = s.expected_length :=
  congrArg (fun r => r.2.2.2.2.2.1) h

theorem ATMaster.regs_line_mode (s t : ATMaster) (h : ATMaster.regs t = ATMaster.regs s) :
    t._line_mode = s._line_mode :=
  congrArg (fun r => r.2.2.2.2.2.2) h

theorem ATMaster.rx_length_fields (CAP : Nat) (s : ATMaster) (b : Nat)
    (hm : s._line_mode = AT_LINE_LENGTH) :
    (s.expected_length ≤ (s._buf_message_len + 1) % UINT32_MOD →
      (ATMaster._rx_irq CAP s b)._buf_message_len = 0 ∧
        (ATMaster._rx_irq CAP s b)._has_data = (s._has_data + 1) % UINT32_MOD) ∧
    (¬ s.expected_length ≤ (s._buf_message_len + 1) % UINT32_MOD →
      (ATMaster._rx_irq CAP s b)._buf_message_len = (s._buf_message_len + 1) % UINT32_MOD ∧
        (ATMaster._rx_irq CAP s b)._has_data = s._has_data) := by
  obtain ⟨-, f2, f3, -, f5⟩ := ATMaster.buf_add_fields CAP s b
  have fe := ATMaster.regs_expected_length _ _ f5
  unfold ATMaster._rx_irq
  rw [hm]
  simp only
  split_ifs with hc
  · have hc' : s.expected_length ≤ (s._buf_message_len + 1) % UINT32_MOD := by
      rw [← f3, ← fe]
      exact hc
    refine ⟨fun _ => ⟨rfl, ?_⟩, fun h => absurd hc' h⟩
    show ((ATMaster._buf_add CAP _ 0)._has_data + 1) % UINT32_MOD = _
    rw [(ATMaster.buf_add_fields CAP _ 0).2.1]
    show ((ATMaster._buf_add CAP s b)._has_data + 1) % UINT32_MOD = _
    rw [f2]
  · have hc' : ¬ s.expected_length ≤ (s._buf_message_len + 1) % UINT32_MOD := by
      rw [← f3, ← fe]
      exact hc
    refine ⟨fun h => absurd h hc', fun _ => ⟨?_, f2⟩⟩
    show ((ATMaster._buf_add CAP s b)._buf_message_len + 1) % UINT32_MOD = _
    rw [f3]

/-- In LENGTH mode the two counters after a run of bytes, whatever the ring
buffer does: the partial counter counts modulo `k`, the pending counter counts
the completed groups of `k` bytes modulo `2^32`. -/
theorem ATMaster.feed_length_count (CAP k : Nat) (hk : 0 < k) (hk2 : k < UINT32_MOD)
    (bytes : List Nat) :
    ∀ (s : ATMaster) (c : Nat), s._line_mode = AT_LINE_LENGTH → s.expected_length = k →
      s._buf_message_len < k → s._has_data = c % UINT32_MOD →
      (ATMaster.feed CAP s bytes)._buf_message_len = (s._buf_message_len + bytes.length) % k ∧
      (ATMaster.feed CAP s bytes)._has_data
        = (c + (s._buf_message_len + bytes.length) / k) % UINT32_MOD := by
  induction bytes with
  | nil =>
    intro s c _ _ hml hc
    refine ⟨?_, ?_⟩
    · show s._buf_message_len = _
      rw [List.length_nil, Nat.add_zero, Nat.mod_eq_of_lt hml]
    · show s._has_data = _
      rw [List.length_nil, Nat.add_zero, Nat.div_eq_of_lt hml, Nat.add_zero, hc]
  | cons b rest ih =>
    intro s c hm he hml hc
    have hregs := ATMaster.rx_regs CAP s b
    have hm1 : (ATMaster._rx_irq CAP s b)._line_mode = AT_LINE_LENGTH :=
      (ATMaster.regs_line_mode _ _ hregs).trans hm
    have he1 : (ATMaster._rx_irq CAP s b).expected_length = k :=
      (ATMaster.regs_expected_length _ _ hregs).trans he
    obtain ⟨hclose, hopen⟩ := ATMaster.rx_length_fields CAP s b hm
    rw [ATMaster.feed_cons, List.length_cons]
    by_cases hlt : s._buf_message_len + 1 < k
    · have hmod : (s._buf_message_len + 1) % UINT32_MOD = s._buf_message_len + 1 :=
        Nat.mod_eq_of_lt (by omega)
      obtain ⟨g1, g2⟩ := hopen (by rw [he, hmod]; omega)
      obtain ⟨i1, i2⟩ := ih _ c hm1 he1 (by rw [g1, hmod]; exact hlt) (by rw [g2, hc])
      rw [i1, i2, g1, hmod]
      have e : s._buf_message_len + 1 + rest.length = s._buf_message_len + (rest.length + 1) := by
        omega
      rw [e]
      exact ⟨rfl, rfl⟩
    · have heq : s._buf_message_len + 1 = k := by omega
      have hmod : (s._buf_message_len + 1) % UINT32_MOD = k := by
        rw [heq]
        exact Nat.mod_eq_of_lt hk2
      obtain ⟨g1, g2⟩ := hclose (by rw [he, hmod])
      obtain ⟨i1, i2⟩ := ih _ (c + 1) hm1 he1 (by rw [g1]; exact hk)
        (by rw [g2, hc, Nat.mod_add_mod])
      rw [i1, i2, g1]
      have e : s._buf_message_len + (rest.length + 1) = k + rest.length := by omega
      rw [e, Nat.zero_add, Nat.add_mod_left, Nat.add_div_left _ hk]
      refine ⟨rfl, ?_⟩
      congr 1
      omega

/-! ## Claims -/

/-- C1: in CRLF mode, from the freshly constructed driver, feeding a payload
free of `'\r'`, `'\n'` and `'\0'` and shorter than `CAP`, followed by `'\r'`,
`'\n'`, leaves the pending-message counter at 1; the following `process(dest)`
writes the payload and a terminating `'\0'` to `dest`, touches nothing behind
it, and leaves occupancy 0. -/
theorem C1_crlf_round_trip (CAP : Nat)
    ( ok_prefix error_prefix init_mem custom_mem payload : List Nat) (dest : Nat → Nat)
    (hp : ∀ b ∈ payload, b ≠ 13 ∧ b ≠ 10 ∧ b ≠ 0) (hlen : payload.length < CAP) :
    (ATMaster.feed CAP (ATMaster.fresh ok_prefix error_prefix init_mem custom_mem)
        (payload ++ [13, 10]))._has_data = 1 ∧
    (∃ d, (ATMaster.process CAP
          (ATMaster.feed CAP (ATMaster.fresh ok_prefix error_prefix init_mem custom_mem)
            (payload ++ [13, 10])) (some dest)).2.2 = some d ∧
        (List.range (payload.length + 1)).map d = payload ++ [0] ∧
        ∀ j, payload.length < j → d j = dest j) ∧
    (ATMaster.process CAP
        (ATMaster.feed CAP (ATMaster.fresh ok_prefix error_prefix init_mem custom_mem)
          (payload ++ [13, 10])) (some dest)).2.1._buf_len = 0 := by
  have hc : 0 < CAP := by omega
  obtain ⟨g1, g2, g3, g4, -, -, -⟩ :=
    ATMaster.feed_crlf_line CAP payload (ATMaster.fresh ok_prefix error_prefix init_mem custom_mem)
      rfl (ATMaster.fresh_wf CAP hc _ _ _ _) (by show 0 ≠ 13; decide) (fun b hb => (hp b hb).1)
      (by show 0 + payload.length + 1 ≤ CAP; omega)
  rw [ATMaster.fresh_contents, List.nil_append] at g2
  have hd : (ATMaster.feed CAP (ATMaster.fresh ok_prefix error_prefix init_mem custom_mem)
      (payload ++ [13, 10]))._has_data = 1 := by
    rw [g4]
    rfl
  have hf := ATMaster.framed_of_contents CAP _ payload [] g2 (fun b hb => (hp b hb).2.2)
  have hlen2 : (ATMaster.feed CAP (ATMaster.fresh ok_prefix error_prefix init_mem custom_mem)
      (payload ++ [13, 10]))._buf_len = payload.length + 1 := by
    rw [← ATMaster.contents_length CAP, g2]
    simp
  rw [ATMaster.process_framed_some CAP _ payload dest g1.2.1 (by rw [hd]; decide) hf]
  refine ⟨hd, ⟨_, rfl, delivered_spec payload dest⟩, ?_⟩
  obtain ⟨-, -, hl, -, -⟩ := ATMaster.classify_buf CAP
    { ATMaster.feed CAP (ATMaster.fresh ok_prefix error_prefix init_mem custom_mem)
        (payload ++ [13, 10]) with
      _has_data := (ATMaster.feed CAP (ATMaster.fresh ok_prefix error_prefix init_mem custom_mem)
        (payload ++ [13, 10]))._has_data - 1 }
  show (ATMaster.classify CAP _).2._buf_len - (payload.length + 1) = 0
  rw [hl]
  show (ATMaster.feed CAP _ _)._buf_len - _ = 0
  rw [hlen2, Nat.sub_self]

/-- Witness of C1: `"OK\r\n"` with `CAP = 128`, ok prefix `"OK"` and error
prefix `"ERROR"`. -/
theorem C1_crlf_round_trip_witness :
    (∀ b ∈ [79, 75], b ≠ 13 ∧ b ≠ 10 ∧ b ≠ 0) ∧ [79, 75].length < 128 ∧
    (ATMaster.feed 128 (ATMaster.fresh [79, 75] [69, 82, 82, 79, 82] [] [])
        ([79, 75] ++ [13, 10]))._has_data = 1 ∧
    (∃ d, (ATMaster.process 128
          (ATMaster.feed 128 (ATMaster.fresh [79, 75] [69, 82, 82, 79, 82] [] [])
            ([79, 75] ++ [13, 10])) (some (fun _ => 255))).2.2 = some d ∧
        (List.range ([79, 75].length + 1)).map d = [79, 75] ++ [0] ∧
        ∀ j, [79, 75].length < j → d j = (fun _ => 255) j) ∧
    (ATMaster.process 128
        (ATMaster.feed 128 (ATMaster.fresh [79, 75] [69, 82, 82, 79, 82] [] [])
          ([79, 75] ++ [13, 10])) (some (fun _ => 255))).2.1._buf_len = 0 :=
  ⟨by decide, by decide,
    C1_crlf_round_trip 128 [79, 75] [69, 82, 82, 79, 82] [] [] [79, 75] (fun _ => 255)
      (by decide) (by decide)⟩

/-- C2 (the code does otherwise): on the pending message `"OK"` the call
`process(dest)` returns OK while `process(NULL)` returns BLANKLINE, because the
write offset that decides the blank-line override only advances when a
destination is given.  The pending counter ends one lower in both calls. -/
theorem C2_null_destination_kind_differs :
    scenario_ok_line._has_data = 1 ∧
    (ATMaster.process 128 scenario_ok_line (some (fun _ => 255))).1 = AT_RESPONSE_OK ∧
    (ATMaster.process 128 scenario_ok_line none).1 = AT_RESPONSE_BLANKLINE ∧
    (ATMaster.process 128 scenario_ok_line (some (fun _ => 255))).2.1._has_data = 0 ∧
    (ATMaster.process 128 scenario_ok_line none).2.1._has_data = 0 := by
  simp [scenario_ok_line, ATMaster.process, ATMaster.feed, ATMaster.fresh, ATMaster.ctor,
    ATMaster.zeroed, ATMaster._rx_irq, ATMaster._buf_add, ATMaster.classify,
    ATMaster.buf_compare, ATMaster.buf_compare_loop, ATMaster._buf_take, ATMaster.drain, store,
    UINT32_MOD, CStrPtr.chars]

/-- C3 (the code does otherwise): after `"A\rB\r\n"` the ring buffer holds
`'A'`, `'B'`, `'\0'` and `process(dest)` writes `"AB\0"`: the deferred `'\r'` is
dropped when the next byte is neither `'\r'` nor `'\n'`. -/
theorem C3_embedded_cr_is_dropped :
    ATMaster.contents 128 scenario_embedded_cr = [65, 66, 0] ∧
    Option.map (fun d => (List.range 4).map d)
      (ATMaster.process 128 scenario_embedded_cr (some (fun _ => 255))).2.2
        = some [65, 66, 0, 255] ∧
    Option.map (fun d => (List.range 4).map d)
      (ATMaster.process 128 scenario_embedded_cr (some (fun _ => 255))).2.2
        ≠ some [65, 13, 66, 0] := by
  simp [scenario_embedded_cr, ATMaster.process, ATMaster.feed, ATMaster.fresh, ATMaster.ctor,
    ATMaster.zeroed, ATMaster._rx_irq, ATMaster._buf_add, ATMaster.classify,
    ATMaster.buf_compare, ATMaster.buf_compare_loop, ATMaster._buf_take, ATMaster.drain, store,
    UINT32_MOD, CStrPtr.chars, ATMaster.contents, ATMaster.peek, List.range, List.range.loop]

/-- C5: when a message is pending and the byte at the tail is the `'\0'`
sentinel, `process` returns BLANKLINE whatever the four prefixes and the
wait-init flag are, writes only `dest[0] = '\0'` when a destination is given,
and removes exactly the sentinel from the ring buffer; in particular `"\r\n"`
fed to the freshly constructed driver is reported as BLANKLINE. -/
theorem C5_blank_line (CAP : Nat) (s : ATMaster) (dest : Dest) (hd : 0 < s._has_data)
    (hl : 0 < s._buf_len) (ht : s._buf_tail < CAP) (hz : s._buf s._buf_tail = 0) :
    (ATMaster.process CAP s dest).1 = AT_RESPONSE_BLANKLINE ∧
    (ATMaster.process CAP s dest).2.2 = dest.map (fun d => store d 0 0) ∧
    (ATMaster.process CAP s dest).2.1._buf_len = s._buf_len - 1 ∧
    (ATMaster.process CAP s dest).2.1._buf_tail = (s._buf_tail + 1) % CAP ∧
    (ATMaster.process CAP s dest).2.1._buf = s._buf ∧
    (ATMaster.process CAP s dest).2.1._buf_head = s._buf_head ∧
    ATMaster.contents CAP (ATMaster.process CAP s dest).2.1 = (ATMaster.contents CAP s).tail ∧
    (∀ (ok err im cm : List Nat) (dest1 : Dest),
      (ATMaster.process CAP (ATMaster.feed CAP (ATMaster.fresh ok err im cm) [13, 10]) dest1).1
        = AT_RESPONSE_BLANKLINE) := by
  have hf := ATMaster.framed_nil CAP s hl ht hz
  have hd1 : s._has_data ≠ 0 := by omega
  obtain ⟨hb, htl, hln, hh, -⟩ :=
    ATMaster.classify_buf CAP { s with _has_data := s._has_data - 1 }
  have key : (ATMaster.process CAP s dest) =
      (AT_RESPONSE_BLANKLINE,
        ATMaster.skip CAP (ATMaster.classify CAP { s with _has_data := s._has_data - 1 }).2 1,
        dest.map (fun d => store d 0 0)) := by
    cases dest with
    | none => exact ATMaster.process_framed_none CAP s [] ht hd1 hf
    | some d =>
      rw [ATMaster.process_framed_some CAP s [] d ht hd1 hf]
      have : delivered [] d = store d 0 0 := by
        funext j
        simp [delivered, store]
      simp [this]
  have blank : ∀ (ok err im cm : List Nat) (dest1 : Dest),
      (ATMaster.process CAP (ATMaster.feed CAP (ATMaster.fresh ok err im cm) [13, 10]) dest1).1
        = AT_RESPONSE_BLANKLINE := by
    intro ok err im cm dest1
    have hline := ATMaster.feed_crlf_line CAP [] (ATMaster.fresh ok err im cm) rfl
        (ATMaster.fresh_wf CAP (by omega) _ _ _ _) (by show 0 ≠ 13; decide)
        (fun b hb => absurd hb (List.not_mem_nil b)) (by show 0 + 0 + 1 ≤ CAP; omega)
    rw [List.nil_append] at hline
    obtain ⟨g1, g2, g3, g4, -, -, -⟩ := hline
    have hf1 := ATMaster.framed_of_contents CAP _ [] [] g2
      (fun b hb => absurd hb (List.not_mem_nil b))
    have hd2 : (ATMaster.feed CAP (ATMaster.fresh ok err im cm) [13, 10])._has_data ≠ 0 := by
      rw [g4]
      show (0 + 1) % UINT32_MOD ≠ 0
      decide
    cases dest1 with
    | none => rw [ATMaster.process_framed_none CAP _ [] g1.2.1 hd2 hf1]
    | some d => rw [ATMaster.process_framed_some CAP _ [] d g1.2.1 hd2 hf1]; rfl
  rw [key]
  refine ⟨rfl, rfl, ?_, ?_, hb, hh, ?_, blank⟩
  · show (ATMaster.classify CAP _).2._buf_len - 1 = _
    rw [hln]
  · show ((ATMaster.classify CAP _).2._buf_tail + 1) % CAP = _
    rw [htl]
  · rw [ATMaster.contents_skip, ATMaster.contents_congr CAP _ _ hb htl hln]
    show List.drop 1 (ATMaster.contents CAP s) = _
    simp

/-- Witness of C5: the scenario driver after `"\r\n"`. -/
theorem C5_blank_line_witness :
    (ATMaster.process 128
      (ATMaster.feed 128 (ATMaster.fresh [79, 75] [69, 82, 82, 79, 82] [] []) [13, 10])
      (some (fun _ => 255))).1 = AT_RESPONSE_BLANKLINE ∧
    (ATMaster.process 128
      (ATMaster.feed 128 (ATMaster.fresh [79, 75] [69, 82, 82, 79, 82] [] []) [13, 10])
      (some (fun _ => 255))).2.1._buf_len = 0 :=
  ⟨(C5_blank_line 128
      (ATMaster.feed 128 (ATMaster.fresh [79, 75] [69, 82, 82, 79, 82] [] []) [13, 10])
      (some (fun _ => 255)) (by decide) (by decide) (by decide) (by decide)).1,
   (C5_blank_line 128
      (ATMaster.feed 128 (ATMaster.fresh [79, 75] [69, 82, 82, 79, 82] [] []) [13, 10])
      (some (fun _ => 255)) (by decide) (by decide) (by decide) (by decide)).2.2.1⟩

/-- C6: with no pending message `process` returns NONE and leaves the whole
driver state and the destination as they were. -/
theorem C6_no_pending (CAP : Nat) (s : ATMaster) (dest : Dest) (h : s._has_data = 0) :
    ATMaster.process CAP s dest = (AT_RESPONSE_NONE, s, dest) := by
  unfold ATMaster.process
  rw [if_pos h]

/-- Witness of C6: the scenario driver once its only message has been read;
the ring buffer still holds the stale bytes. -/
theorem C6_no_pending_witness :
    (ATMaster.process 128 scenario_ok_line (some (fun _ => 255))).2.1._has_data = 0 ∧
    ATMaster.process 128 (ATMaster.process 128 scenario_ok_line (some (fun _ => 255))).2.1 none
      = (AT_RESPONSE_NONE, (ATMaster.process 128 scenario_ok_line (some (fun _ => 255))).2.1,
          none) :=
  ⟨by
    simp [scenario_ok_line, ATMaster.process, ATMaster.feed, ATMaster.fresh, ATMaster.ctor,
      ATMaster.zeroed, ATMaster._rx_irq, ATMaster._buf_add, ATMaster.classify,
      ATMaster.buf_compare, ATMaster.buf_compare_loop, ATMaster._buf_take, ATMaster.drain, store,
      UINT32_MOD, CStrPtr.chars],
   C6_no_pending 128 _ none (by
    simp [scenario_ok_line, ATMaster.process, ATMaster.feed, ATMaster.fresh, ATMaster.ctor,
      ATMaster.zeroed, ATMaster._rx_irq, ATMaster._buf_add, ATMaster.classify,
      ATMaster.buf_compare, ATMaster.buf_compare_loop, ATMaster._buf_take, ATMaster.drain, store,
      UINT32_MOD, CStrPtr.chars])⟩

/-- C4: for a pending non-empty message `msg` at the tail (the buffered bytes
up to the first `'\0'`) and null-terminated prefixes, `process(dest)` with a
non-null `dest` returns INIT if wait-init is set and `msg` starts with the init
prefix, otherwise OK, ERROR, CUSTOM for the first of the ok, error and custom
prefixes that `msg` starts with, otherwise OTHER.  Only `msg` enters the
result: the bytes stored behind its sentinel do not. -/
theorem C4_classification_precedence (CAP : Nat) (s : ATMaster) (msg : List Nat)
    (dest : Nat → Nat) (hd : 0 < s._has_data) (ht : s._buf_tail < CAP)
    (hf : ATMaster.framed CAP s msg) (hne : msg ≠ [])
    (hok : ∀ b ∈ s._at_ok_prefix, b ≠ 0) (herr : ∀ b ∈ s._at_error_prefix, b ≠ 0)
    (hinit : s._wait_init = true → ∀ b ∈ CStrPtr.chars s._at_init_prefix, b ≠ 0)
    (hcustom : ∀ b ∈ CStrPtr.chars s._at_custom_prefix, b ≠ 0) :
    (ATMaster.process CAP s (some dest)).1 =
      classify_spec s._wait_init (CStrPtr.chars s._at_init_prefix) s._at_ok_prefix
        s._at_error_prefix (CStrPtr.chars s._at_custom_prefix) msg := by
  have hf1 : ATMaster.framed CAP { s with _has_data := s._has_data - 1 } msg := hf
  have ht1 : ({ s with _has_data := s._has_data - 1 } : ATMaster)._buf_tail < CAP := ht
  rw [ATMaster.process_framed_some CAP s msg dest ht (by omega) hf]
  have hlen : msg.length ≠ 0 := fun h => hne (List.length_eq_zero.mp h)
  simp only [hlen, if_false]
  unfold ATMaster.classify classify_spec
  rw [ATMaster.buf_compare_framed CAP _ ht1 msg _ hf1 hok,
    ATMaster.buf_compare_framed CAP _ ht1 msg _ hf1 herr,
    ATMaster.buf_compare_framed CAP _ ht1 msg _ hf1 hcustom]
  by_cases hw : s._wait_init = true
  · rw [ATMaster.buf_compare_framed CAP _ ht1 msg _ hf1 (hinit hw)]
    simp only [hw, Bool.true_and]
    split_ifs <;> rfl
  · have hw' : s._wait_init = false := by simpa using hw
    simp only [hw', Bool.false_and, Bool.false_eq_true, if_false]
    split_ifs <;> rfl

/-- Witness of C4: the custom-match scenario; the message starts with neither
`"OK"` nor `"ERROR"` but with `"+CME"`, so the kind is CUSTOM. -/
theorem C4_classification_precedence_witness :
    (ATMaster.process 128 scenario_custom (some (fun _ => 255))).1 = AT_RESPONSE_CUSTOM :=
  (C4_classification_precedence 128 scenario_custom
    [43, 67, 77, 69, 32, 69, 82, 82, 79, 82, 58, 32, 49, 48] (fun _ => 255)
    (by decide) (by decide)
    (ATMaster.framed_of_contents 128 scenario_custom _ [] (by decide) (by decide))
    (by decide) (by decide) (by decide) (by decide) (by decide)).trans (by decide)

/-- The init match is one-shot when a destination is given.  In a driver armed
by `set_init_prefix(p)` with `p` non-empty (wait-init set, `p` stored),
`process` with a destination on a pending message that starts with `p` returns
INIT and clears wait-init; after that, in every sequence of calls without
`set_init_prefix`, no `process` call returns INIT. -/
theorem ATMaster.init_one_shot (CAP : Nat) (s : ATMaster) (p msg : List Nat) (dest : Nat → Nat)
    (ops : List Op) (harm : s._wait_init = true)
    (hp : s._at_init_prefix = CStrPtr.assigned p) (hpne : p ≠ []) (hpz : ∀ b ∈ p, b ≠ 0)
    (hd : 0 < s._has_data) (ht : s._buf_tail < CAP) (hf : ATMaster.framed CAP s msg)
    (hstart : p <+: msg) (hops : ∀ op ∈ ops, Op.arms op = false) :
    (ATMaster.process CAP s (some dest)).1 = AT_RESPONSE_INIT ∧
    (ATMaster.process CAP s (some dest)).2.1._wait_init = false ∧
    ∀ k ∈ (ATMaster.run CAP (ATMaster.process CAP s (some dest)).2.1 ops).2,
      k ≠ AT_RESPONSE_INIT := by
  have hf1 : ATMaster.framed CAP { s with _has_data := s._has_data - 1 } msg := hf
  have ht1 : ({ s with _has_data := s._has_data - 1 } : ATMaster)._buf_tail < CAP := ht
  have hlen : msg.length ≠ 0 := by
    intro h
    have h1 := List.IsPrefix.length_le hstart
    have h2 : p.length = 0 := by omega
    exact hpne (List.length_eq_zero.mp h2)
  have hch : CStrPtr.chars s._at_init_prefix = p := by rw [hp]; rfl
  have hcmp : ATMaster.buf_compare CAP { s with _has_data := s._has_data - 1 }
      (CStrPtr.chars s._at_init_prefix) false = true := by
    rw [ATMaster.buf_compare_framed CAP _ ht1 msg _ hf1 (by rw [hch]; exact hpz), hch]
    exact List.isPrefixOf_iff_prefix.mpr hstart
  have hcond : (s._wait_init && ATMaster.buf_compare CAP { s with _has_data := s._has_data - 1 }
      (CStrPtr.chars s._at_init_prefix) false) = true :=
    (Bool.and_eq_true _ _).mpr ⟨harm, hcmp⟩
  have hcl : ATMaster.classify CAP { s with _has_data := s._has_data - 1 } =
      (AT_RESPONSE_INIT, { s with _has_data := s._has_data - 1, _wait_init := false }) := by
    unfold ATMaster.classify
    exact if_pos hcond
  have hproc := ATMaster.process_framed_some CAP s msg dest ht (by omega) hf
  rw [hcl] at hproc
  simp only [hlen, if_false] at hproc
  have hwi : (ATMaster.process CAP s (some dest)).2.1._wait_init = false := by
    rw [hproc]
    rfl
  refine ⟨by rw [hproc], hwi, ?_⟩
  exact (ATMaster.run_disarmed CAP ops _ hwi hops).1

/-- C7 (the code does otherwise): on the armed scenario driver the first
`process` call returns INIT when it is given a destination, but called with a
null destination it returns BLANKLINE and still clears wait-init, so the one
INIT is lost: the next `process` call, on the second `"READY"`, returns OTHER.
The call after an INIT returns OTHER as well. -/
theorem C7_null_destination_loses_init :
    scenario_init._wait_init = true ∧
    (ATMaster.process 128 scenario_init (some (fun _ => 255))).1 = AT_RESPONSE_INIT ∧
    (ATMaster.process 128 (ATMaster.process 128 scenario_init (some (fun _ => 255))).2.1
      (some (fun _ => 255))).1 = AT_RESPONSE_OTHER ∧
    (ATMaster.process 128 scenario_init none).1 = AT_RESPONSE_BLANKLINE ∧
    (ATMaster.process 128 scenario_init none).2.1._wait_init = false ∧
    (ATMaster.process 128 (ATMaster.process 128 scenario_init none).2.1
      (some (fun _ => 255))).1 = AT_RESPONSE_OTHER := by
  simp [scenario_init, ATMaster.process, ATMaster.feed, ATMaster.fresh, ATMaster.ctor,
    ATMaster.zeroed, ATMaster.set_init_prefix, ATMaster._rx_irq, ATMaster._buf_add,
    ATMaster.classify, ATMaster.buf_compare, ATMaster.buf_compare_loop, ATMaster._buf_take,
    ATMaster.drain, store, UINT32_MOD, CStrPtr.chars]

/-- C8 (the code does otherwise): with no custom prefix registered `process`
still runs `buf_compare` on the custom pointer, so the kind depends on the bytes
behind the unassigned pointer: a zero byte there, or bytes that start the
message, give CUSTOM; only bytes that do not start it give the OTHER of the
claim.  The destination receives `"HELLO\0"` in each case. -/
theorem C8_unregistered_custom_is_read :
    CStrPtr.registered ( ATMaster._at_custom_prefix (scenario_length [])) = false ∧
    (ATMaster.process 128 (scenario_length []) (some (fun _ => 255))).1 = AT_RESPONSE_CUSTOM ∧
    (ATMaster.process 128 (scenario_length [72]) (some (fun _ => 255))).1 = AT_RESPONSE_CUSTOM ∧
    (ATMaster.process 128 (scenario_length [255]) (some (fun _ => 255))).1 = AT_RESPONSE_OTHER ∧
    Option.map (fun d => (List.range 6).map d)
      (ATMaster.process 128 (scenario_length []) (some (fun _ => 255))).2.2
        = some [72, 69, 76, 76, 79, 0] := by
  simp [scenario_length, ATMaster.process, ATMaster.feed, ATMaster.fresh, ATMaster.ctor,
    ATMaster.zeroed, ATMaster.set_line_mode, ATMaster.set_expected_length, ATMaster._rx_irq,
    ATMaster._buf_add, ATMaster.classify, ATMaster.buf_compare, ATMaster.buf_compare_loop,
    ATMaster._buf_take, ATMaster.drain, store, UINT32_MOD, CStrPtr.chars, CStrPtr.registered,
    List.range, List.range.loop]

/-- C9, as the code has it: on a well-formed ring, `set_line_mode(LENGTH)`
called when the partial counter has reached `expected_length` sets the mode,
resets the partial counter, adds one to the pending counter modulo `2^32`, and
appends one `'\0'` to the ring buffer when there is room; on a full buffer the
sentinel is dropped and the buffered bytes stay as they are.  When the partial
counter is below `expected_length` only the mode changes. -/
theorem C9_late_close (CAP : Nat) (s : ATMaster) (hwf : ATMaster.wf CAP s) :
    (s.expected_length ≤ s._buf_message_len →
      (ATMaster.set_line_mode CAP s AT_LINE_LENGTH)._line_mode = AT_LINE_LENGTH ∧
      (ATMaster.set_line_mode CAP s AT_LINE_LENGTH)._has_data
        = (s._has_data + 1) % UINT32_MOD ∧
      (ATMaster.set_line_mode CAP s AT_LINE_LENGTH)._buf_message_len = 0 ∧
      (s._buf_len < CAP →
        ATMaster.contents CAP (ATMaster.set_line_mode CAP s AT_LINE_LENGTH)
          = ATMaster.contents CAP s ++ [0]) ∧
      (s._buf_len = CAP →
        ATMaster.contents CAP (ATMaster.set_line_mode CAP s AT_LINE_LENGTH)
          = ATMaster.contents CAP s)) ∧
    (s._buf_message_len < s.expected_length →
      ATMaster.set_line_mode CAP s AT_LINE_LENGTH = { s with _line_mode := AT_LINE_LENGTH }) := by
  have hwf1 : ATMaster.wf CAP { s with _line_mode := AT_LINE_LENGTH } := hwf
  obtain ⟨f1, f2, f3, f4, f5⟩ :=
    ATMaster.buf_add_fields CAP { s with _line_mode := AT_LINE_LENGTH } 0
  constructor
  · intro h
    have hc : ({ s with _line_mode := AT_LINE_LENGTH } : ATMaster)._buf_message_len ≥
        ({ s with _line_mode := AT_LINE_LENGTH } : ATMaster).expected_length := h
    have e : ATMaster.set_line_mode CAP s AT_LINE_LENGTH =
        { ATMaster._buf_add CAP { s with _line_mode := AT_LINE_LENGTH } 0 with
          _has_data :=
            ((ATMaster._buf_add CAP { s with _line_mode := AT_LINE_LENGTH } 0)._has_data + 1)
              % UINT32_MOD
          _buf_message_len := 0 } := by
      unfold ATMaster.set_line_mode
      simp only [if_true]
      rw [if_pos hc]
    rw [e]
    refine ⟨ATMaster.regs_line_mode _ _ f5, ?_, rfl, fun hl => ?_, fun hl => ?_⟩
    · show ((ATMaster._buf_add CAP _ 0)._has_data + 1) % UINT32_MOD = _
      rw [f2]
    · exact ATMaster.buf_add_contents CAP _ 0 hwf1 hl
    · show ATMaster.contents CAP (ATMaster._buf_add CAP _ 0) = _
      rw [ATMaster.buf_add_full CAP _ 0 (by show ¬ s._buf_len < CAP; omega)]
      rfl
  · intro h
    have hc : ¬ ({ s with _line_mode := AT_LINE_LENGTH } : ATMaster)._buf_message_len ≥
        ({ s with _line_mode := AT_LINE_LENGTH } : ATMaster).expected_length := by
      show ¬ s._buf_message_len ≥ s.expected_length
      omega
    unfold ATMaster.set_line_mode
    simp only [if_true]
    rw [if_neg hc]

/-- Witness of C9: the late-close scenario; the pending counter is 1 right after
the switch, the ring buffer holds `"HELLO\0"` and `process(dest)` delivers
`"HELLO\0"`. -/
theorem C9_late_close_witness :
    ATMaster.wf 128 scenario_late_close ∧
    (ATMaster.set_line_mode 128 scenario_late_close AT_LINE_LENGTH)._has_data = 1 ∧
    ATMaster.contents 128 (ATMaster.set_line_mode 128 scenario_late_close AT_LINE_LENGTH)
      = [72, 69, 76, 76, 79, 0] ∧
    Option.map (fun d => (List.range 6).map d)
      (ATMaster.process 128 (ATMaster.set_line_mode 128 scenario_late_close AT_LINE_LENGTH)
        (some (fun _ => 255))).2.2 = some [72, 69, 76, 76, 79, 0] :=
  ⟨by decide,
   ((C9_late_close 128 scenario_late_close (by decide)).1 (by decide)).2.1,
   (((C9_late_close 128 scenario_late_close (by decide)).1 (by decide)).2.2.2.1
      (by decide)).trans (by decide),
   by
    simp [scenario_late_close, ATMaster.process, ATMaster.feed, ATMaster.fresh, ATMaster.ctor,
      ATMaster.zeroed, ATMaster.set_line_mode, ATMaster.set_expected_length, ATMaster._rx_irq,
      ATMaster._buf_add, ATMaster.classify, ATMaster.buf_compare, ATMaster.buf_compare_loop,
      ATMaster._buf_take, ATMaster.drain, store, UINT32_MOD, CStrPtr.chars, List.range,
      List.range.loop]⟩

/-- C9 as stated fails: on the full buffer the partial counter has reached
`expected_length`, the pending counter goes up, but no sentinel is appended;
and from the largest counter value the pending counter wraps to 0 instead of
going up by one. -/
theorem C9_late_close_counterexample :
    (scenario_full.expected_length ≤ scenario_full._buf_message_len ∧
      (ATMaster.set_line_mode 2 scenario_full AT_LINE_LENGTH)._has_data
        = scenario_full._has_data + 1 ∧
      ATMaster.contents 2 (ATMaster.set_line_mode 2 scenario_full AT_LINE_LENGTH) = [65, 66] ∧
      ATMaster.contents 2 (ATMaster.set_line_mode 2 scenario_full AT_LINE_LENGTH)
        ≠ ATMaster.contents 2 scenario_full ++ [0]) ∧
    (ATMaster.set_line_mode 2 { scenario_full with _has_data := 4294967295 }
        AT_LINE_LENGTH)._has_data ≠ 4294967295 + 1 := by
  decide

/-- C10, as the code has it: in LENGTH mode with `expected_length = k`,
`1 ≤ k < 2^32`, starting with both counters at zero, after any `n * k` bytes
the partial counter is zero and the pending counter is `n` modulo `2^32`. -/
theorem C10_length_count (CAP k n : Nat) (s : ATMaster) (bytes : List Nat) (hk : 1 ≤ k)
    (hk2 : k < UINT32_MOD) (hm : s._line_mode = AT_LINE_LENGTH) (he : s.expected_length = k)
    (hml : s._buf_message_len = 0) (hd : s._has_data = 0) (hlen : bytes.length = n * k) :
    (ATMaster.feed CAP s bytes)._has_data = n % UINT32_MOD ∧
    (ATMaster.feed CAP s bytes)._buf_message_len = 0 := by
  obtain ⟨h1, h2⟩ := ATMaster.feed_length_count CAP k hk hk2 bytes s 0 hm he (by omega)
    (by rw [hd]; rfl)
  rw [hml, hlen] at h1 h2
  simp only [Nat.zero_add] at h1 h2
  rw [Nat.mul_mod_left] at h1
  rw [Nat.mul_div_cancel _ hk] at h2
  exact ⟨h2, h1⟩

/-- Witness of C10: `k = 2`, `n = 3`, six bytes. -/
theorem C10_length_count_witness :
    (ATMaster.feed 128 (scenario_length_mode 2) [72, 69, 76, 76, 79, 33])._has_data = 3 ∧
    (ATMaster.feed 128 (scenario_length_mode 2) [72, 69, 76, 76, 79, 33])._buf_message_len = 0 :=
  C10_length_count 128 2 3 (scenario_length_mode 2) [72, 69, 76, 76, 79, 33] (by decide)
    (by decide) (by decide) (by decide) (by decide) (by decide) (by decide)

/-- C10 as stated fails once the pending counter wraps: with `k = 1` and
`n = 2^32` bytes the pending counter is 0, not `n`. -/
theorem C10_length_count_counterexample :
    (scenario_length_mode 1)._line_mode = AT_LINE_LENGTH ∧
    (scenario_length_mode 1).expected_length = 1 ∧
    (scenario_length_mode 1)._buf_message_len = 0 ∧
    (scenario_length_mode 1)._has_data = 0 ∧
    (List.replicate 4294967296 65).length = 4294967296 * 1 ∧
    (ATMaster.feed 128 (scenario_length_mode 1) (List.replicate 4294967296 65))._has_data = 0 ∧
    (ATMaster.feed 128 (scenario_length_mode 1) (List.replicate 4294967296 65))._has_data
      ≠ 4294967296 := by
  have h := (ATMaster.feed_length_count 128 1 (by decide) (by decide)
    (List.replicate 4294967296 65) (scenario_length_mode 1) 0 (by decide) (by decide)
    (by decide) (by decide)).2
  rw [List.length_replicate] at h
  have h0 : (ATMaster.feed 128 (scenario_length_mode 1)
      (List.replicate 4294967296 65))._has_data = 0 := by
    rw [h]
    decide
  refine ⟨by decide, by decide, by decide, by decide, by rw [List.length_replicate], h0, ?_⟩
  rw [h0]
  decide

/-! ## The CRLF and LF framers: the pending counter -/

theorem ATMaster.rx_crlf_fields (CAP : Nat) (s : ATMaster) (b : Nat)
    (hm : s._line_mode = AT_LINE_CRLF) :
    (ATMaster._rx_irq CAP s b)._last_received_char = b ∧
    ((b = 10 ∧ s._last_received_char = 13) →
      (ATMaster._rx_irq CAP s b)._has_data = (s._has_data + 1) % UINT32_MOD) ∧
    (¬ (b = 10 ∧ s._last_received_char = 13) →
      (ATMaster._rx_irq CAP s b)._has_data = s._has_data) := by
  unfold ATMaster._rx_irq
  rw [hm]
  simp only
  refine ⟨trivial, fun h => ?_, fun h => ?_⟩
  · have hb : ¬ b = 13 := by omega
    rw [if_neg hb, if_pos h]
    show ((ATMaster._buf_add CAP s 0)._has_data + 1) % UINT32_MOD = _
    rw [(ATMaster.buf_add_fields CAP s 0).2.1]
  · split_ifs
    · exact (ATMaster.buf_add_fields CAP s _).2.1
    · rfl
    · exact (ATMaster.buf_add_fields CAP s _).2.1

theorem ATMaster.feed_crlf_no_terminator (CAP : Nat) (bytes : List Nat) :
    ∀ s : ATMaster, s._line_mode = AT_LINE_CRLF → s._has_data = 0 →
      ¬ [13, 10] <:+: s._last_received_char :: bytes →
      (ATMaster.feed CAP s bytes)._has_data = 0 := by
  induction bytes with
  | nil => intro s _ h _; exact h
  | cons b rest ih =>
    intro s hm hd hno
    obtain ⟨f1, -, f3⟩ := ATMaster.rx_crlf_fields CAP s b hm
    have hnot : ¬ (b = 10 ∧ s._last_received_char = 13) := by
      rintro ⟨rfl, h13⟩
      apply hno
      rw [h13]
      exact (List.prefix_append [13, 10] rest).isInfix
    rw [ATMaster.feed_cons]
    apply ih
    · exact (ATMaster.regs_line_mode _ _ (ATMaster.rx_regs CAP s b)).trans hm
    · rw [f3 hnot, hd]
    · rw [f1]
      intro h
      exact hno (List.infix_cons h)

/-- C11: in CRLF mode, from the freshly constructed driver, while a byte
sequence without the two bytes `'\r'`, `'\n'` in a row arrives, the pending
counter is zero after every byte. -/
theorem C11_no_crlf_no_pending (CAP : Nat) ( ok_prefix error_prefix init_mem custom_mem : List Nat)
    (bytes : List Nat) (h : ¬ [13, 10] <:+: bytes) :
    ∀ handled : List Nat, handled <+: bytes →
      (ATMaster.feed CAP (ATMaster.fresh ok_prefix error_prefix init_mem custom_mem)
        handled)._has_data = 0 := by
  intro handled hpre
  apply ATMaster.feed_crlf_no_terminator CAP handled _ rfl rfl
  intro hin
  rcases List.infix_cons_iff.mp hin with h1 | h1
  · have := (List.cons_prefix_cons.mp h1).1
    exact absurd this (by show ¬ 13 = 0; decide)
  · exact h (h1.trans hpre.isInfix)

/-- Witness of C11: the bytes `"A\rB\n\r"` hold a `'\r'` and a `'\n'` but never
one right after the other. -/
theorem C11_no_crlf_no_pending_witness :
    ¬ [13, 10] <:+: [65, 13, 66, 10, 13] ∧
    (ATMaster.feed 128 (ATMaster.fresh [79, 75] [69, 82, 82, 79, 82] [] [])
      [65, 13, 66, 10, 13])._has_data = 0 ∧
    (ATMaster.feed 128 (ATMaster.fresh [79, 75] [69, 82, 82, 79, 82] [] [])
      [65, 13, 66])._has_data = 0 :=
  ⟨by decide,
   C11_no_crlf_no_pending 128 [79, 75] [69, 82, 82, 79, 82] [] [] [65, 13, 66, 10, 13]
     (by decide) _ (List.prefix_refl _),
   C11_no_crlf_no_pending 128 [79, 75] [69, 82, 82, 79, 82] [] [] [65, 13, 66, 10, 13]
     (by decide) [65, 13, 66] (by decide)⟩

theorem ATMaster.rx_lf_fields (CAP : Nat) (s : ATMaster) (b : Nat)
    (hm : s._line_mode = AT_LINE_LF) :
    (b = 10 → (ATMaster._rx_irq CAP s b)._has_data = (s._has_data + 1) % UINT32_MOD) ∧
    (b ≠ 10 → (ATMaster._rx_irq CAP s b)._has_data = s._has_data) := by
  unfold ATMaster._rx_irq
  rw [hm]
  simp only
  refine ⟨fun h => ?_, fun h => ?_⟩
  · rw [if_pos h]
    show ((ATMaster._buf_add CAP s 0)._has_data + 1) % UINT32_MOD = _
    rw [(ATMaster.buf_add_fields CAP s 0).2.1]
  · rw [if_neg h]
    exact (ATMaster.buf_add_fields CAP s b).2.1

/-- In LF mode the pending counter counts the `'\n'` bytes modulo `2^32`,
whatever the ring buffer does. -/
theorem ATMaster.feed_lf_count (CAP : Nat) (bytes : List Nat) :
    ∀ (s : ATMaster) (c : Nat), s._line_mode = AT_LINE_LF → s._has_data = c % UINT32_MOD →
      (ATMaster.feed CAP s bytes)._has_data = (c + bytes.count 10) % UINT32_MOD := by
  induction bytes with
  | nil =>
    intro s c _ hc
    simpa using hc
  | cons b rest ih =>
    intro s c hm hc
    obtain ⟨f1, f2⟩ := ATMaster.rx_lf_fields CAP s b hm
    have hm1 : (ATMaster._rx_irq CAP s b)._line_mode = AT_LINE_LF :=
      (ATMaster.regs_line_mode _ _ (ATMaster.rx_regs CAP s b)).trans hm
    rw [ATMaster.feed_cons]
    by_cases hb : b = 10
    · rw [ih _ (c + 1) hm1 (by rw [f1 hb, hc, Nat.mod_add_mod]), hb, List.count_cons_self]
      congr 1
      omega
    · rw [ih _ c hm1 (by rw [f2 hb, hc]), List.count_cons_of_ne (fun h => hb h.symm)]

/-- C12: in LF mode, starting with the pending counter at zero and with no
`process` call in between, after any byte sequence with fewer than `2^32`
`'\n'` bytes the pending counter equals the number of `'\n'` bytes in it. -/
theorem C12_lf_count (CAP : Nat) (s : ATMaster) (bytes : List Nat)
    (hm : s._line_mode = AT_LINE_LF) (hd : s._has_data = 0)
    (hshort : bytes.count 10 < UINT32_MOD) :
    (ATMaster.feed CAP s bytes)._has_data = bytes.count 10 := by
  rw [ATMaster.feed_lf_count CAP bytes s 0 hm (by rw [hd]; rfl), Nat.zero_add,
    Nat.mod_eq_of_lt hshort]

/-- Witness of C12: the scenario driver switched to LF mode, then the bytes
`"A\nB\r\n\n"` arrive: three `'\n'` bytes. -/
theorem C12_lf_count_witness :
    (ATMaster.feed 128
      (ATMaster.set_line_mode 128 (ATMaster.fresh [79, 75] [69, 82, 82, 79, 82] [] []) AT_LINE_LF)
      [65, 10, 66, 13, 10, 10])._has_data = 3 :=
  C12_lf_count 128
    (ATMaster.set_line_mode 128 (ATMaster.fresh [79, 75] [69, 82, 82, 79, 82] [] []) AT_LINE_LF)
    [65, 10, 66, 13, 10, 10] (by decide) (by decide) (by decide)

/-! ## Several CRLF lines -/

theorem framed_stream_length (lines : List (List Nat)) :
    (framed_stream lines).length = (lines.map List.length).sum + lines.length := by
  induction lines with
  | nil => rfl
  | cons l ls ih =>
    simp only [framed_stream, List.length_append, List.length_cons, ih, List.map_cons,
      List.sum_cons]
    omega

theorem ATMaster.feed_crlf_lines (CAP : Nat) (lines : List (List Nat)) :
    ∀ (s : ATMaster) (c : Nat), s._line_mode = AT_LINE_CRLF → ATMaster.wf CAP s →
      s._last_received_char ≠ 13 → (∀ l ∈ lines, ∀ b ∈ l, b ≠ 13) →
      s._buf_len + (framed_stream lines).length ≤ CAP → s._has_data = c % UINT32_MOD →
      ATMaster.wf CAP (ATMaster.feed CAP s (crlf_wire lines)) ∧
      ATMaster.contents CAP (ATMaster.feed CAP s (crlf_wire lines))
        = ATMaster.contents CAP s ++ framed_stream lines ∧
      (ATMaster.feed CAP s (crlf_wire lines))._has_data = (c + lines.length) % UINT32_MOD := by
  induction lines with
  | nil =>
    intro s c _ hwf _ _ _ hc
    exact ⟨hwf, by simp [crlf_wire, framed_stream, ATMaster.feed], hc⟩
  | cons l ls ih =>
    intro s c hm hwf hl hp hroom hc
    have hroom' : s._buf_len + (l.length + (framed_stream ls).length + 1) ≤ CAP := by
      simpa [framed_stream, Nat.add_assoc] using hroom
    obtain ⟨g1, g2, -, g4, g5, -, g7⟩ := ATMaster.feed_crlf_line CAP l s hm hwf hl
      (hp l (List.mem_cons_self _ _)) (by omega)
    have hlen1 : (ATMaster.feed CAP s (l ++ [13, 10]))._buf_len = s._buf_len + l.length + 1 := by
      rw [← ATMaster.contents_length CAP, g2]
      simp [ATMaster.contents_length, Nat.add_assoc]
    obtain ⟨i1, i2, i3⟩ := ih (ATMaster.feed CAP s (l ++ [13, 10])) (c + 1)
      ((ATMaster.regs_line_mode _ _ g7).trans hm) g1 (by rw [g5]; decide)
      (fun x hx => hp x (List.mem_cons_of_mem _ hx)) (by rw [hlen1]; omega)
      (by rw [g4, hc, Nat.mod_add_mod])
    have e : crlf_wire (l :: ls) = (l ++ [13, 10]) ++ crlf_wire ls := rfl
    rw [e, ATMaster.feed_append]
    refine ⟨i1, ?_, ?_⟩
    · rw [i2, g2]
      simp [framed_stream]
    · rw [i3, List.length_cons]
      congr 1
      omega

theorem ATMaster.process_each_stream (CAP : Nat) (lines : List (List Nat)) :
    ∀ (dests : List (Nat → Nat)) (s : ATMaster), dests.length = lines.length →
      s._buf_tail < CAP → ATMaster.contents CAP s = framed_stream lines →
      s._has_data = lines.length → (∀ l ∈ lines, ∀ b ∈ l, b ≠ 0) →
      (ATMaster.process_each CAP s dests).1._buf_len = 0 ∧
      (ATMaster.process_each CAP s dests).1._has_data = 0 ∧
      (ATMaster.process_each CAP s dests).2.map Prod.snd
        = List.zipWith (fun l d => some (delivered l d)) lines dests := by
  induction lines with
  | nil =>
    intro dests s hd _ hc hh _
    have hd0 : dests = [] := List.length_eq_zero.mp hd
    subst hd0
    refine ⟨?_, hh, rfl⟩
    show s._buf_len = 0
    rw [← ATMaster.contents_length CAP s, hc]
    rfl
  | cons l ls ih =>
    intro dests s hd ht hc hh hz
    cases dests with
    | nil => simp at hd
    | cons d ds =>
      have hf := ATMaster.framed_of_contents CAP s l (framed_stream ls) hc
        (hz l (List.mem_cons_self _ _))
      have hne : s._has_data ≠ 0 := by rw [hh]; simp
      have hp := ATMaster.process_framed_some CAP s l d ht hne hf
      obtain ⟨hb, htl, hln, -, hhd⟩ :=
        ATMaster.classify_buf CAP { s with _has_data := s._has_data - 1 }
      have hcap : 0 < CAP := by omega
      have ht2 : (ATMaster.process CAP s (some d)).2.1._buf_tail < CAP := by
        rw [hp]
        exact Nat.mod_lt _ hcap
      have hc2 : ATMaster.contents CAP (ATMaster.process CAP s (some d)).2.1
          = framed_stream ls := by
        rw [hp]
        show ATMaster.contents CAP (ATMaster.skip CAP _ (l.length + 1)) = _
        rw [ATMaster.contents_skip, ATMaster.contents_congr CAP _ _ hb htl hln]
        show List.drop (l.length + 1) (ATMaster.contents CAP s) = _
        rw [hc]
        show List.drop (l.length + 1) (l ++ ([0] ++ framed_stream ls)) = _
        rw [← List.append_assoc]
        exact List.drop_left' (by simp)
      have hh2 : (ATMaster.process CAP s (some d)).2.1._has_data = ls.length := by
        rw [ATMaster.process_pending CAP s (some d) hne, hh]
        simp
      obtain ⟨i1, i2, i3⟩ := ih ds _ (by simpa using hd) ht2 hc2 hh2
        (fun x hx => hz x (List.mem_cons_of_mem _ hx))
      refine ⟨i1, i2, ?_⟩
      show (ATMaster.process CAP s (some d)).2.2 :: _ = _
      rw [i3, hp]
      rfl

/-- C13: from the freshly constructed driver in CRLF mode, feeding `N` lines
free of `'\r'`, `'\n'` and `'\0'`, each followed by `'\r'`, `'\n'`, with total
length plus `N` at most `CAP`, and then calling `process(dest)` `N` times,
leaves occupancy 0 and the pending counter at 0, and the i-th call delivers the
i-th line, null-terminated.  The buffer size is one that a 32-bit index can
address. -/
theorem C13_lines_drain (CAP : Nat) ( ok_prefix error_prefix init_mem custom_mem : List Nat)
    (lines : List (List Nat)) (dests : List (Nat → Nat))
    (hz : ∀ l ∈ lines, ∀ b ∈ l, b ≠ 13 ∧ b ≠ 10 ∧ b ≠ 0)
    (hroom : (lines.map List.length).sum + lines.length ≤ CAP) (hcap : CAP < UINT32_MOD)
    (hd : dests.length = lines.length) :
    (ATMaster.process_each CAP
      (ATMaster.feed CAP (ATMaster.fresh ok_prefix error_prefix init_mem custom_mem)
        (crlf_wire lines)) dests).1._buf_len = 0 ∧
    (ATMaster.process_each CAP
      (ATMaster.feed CAP (ATMaster.fresh ok_prefix error_prefix init_mem custom_mem)
        (crlf_wire lines)) dests).1._has_data = 0 ∧
    (ATMaster.process_each CAP
      (ATMaster.feed CAP (ATMaster.fresh ok_prefix error_prefix init_mem custom_mem)
        (crlf_wire lines)) dests).2.map Prod.snd
      = List.zipWith (fun l d => some (delivered l d)) lines dests := by
  by_cases hc : 0 < CAP
  · obtain ⟨g1, g2, g3⟩ := ATMaster.feed_crlf_lines CAP lines
      (ATMaster.fresh ok_prefix error_prefix init_mem custom_mem) 0 rfl
      (ATMaster.fresh_wf CAP hc _ _ _ _) (by show 0 ≠ 13; decide)
      (fun l hl b hb => (hz l hl b hb).1)
      (by rw [framed_stream_length]; show 0 + _ ≤ CAP; omega) rfl
    rw [ATMaster.fresh_contents, List.nil_append] at g2
    rw [Nat.zero_add, Nat.mod_eq_of_lt (by omega)] at g3
    exact ATMaster.process_each_stream CAP lines dests _ hd g1.2.1 g2 g3
      (fun l hl b hb => (hz l hl b hb).2.2)
  · have hl0 : lines = [] := List.length_eq_zero.mp (by omega)
    subst hl0
    have hd0 : dests = [] := List.length_eq_zero.mp hd
    subst hd0
    exact ⟨rfl, rfl, rfl⟩

/-- Witness of C13: the three lines `"OK"`, `""` and `"HI"` with `CAP = 128`. -/
theorem C13_lines_drain_witness :
    (ATMaster.process_each 128
      (ATMaster.feed 128 (ATMaster.fresh [79, 75] [69, 82, 82, 79, 82] [] [])
        (crlf_wire [[79, 75], [], [72, 73]]))
      [fun _ => 255, fun _ => 255, fun _ => 255]).1._buf_len = 0 ∧
    (ATMaster.process_each 128
      (ATMaster.feed 128 (ATMaster.fresh [79, 75] [69, 82, 82, 79, 82] [] [])
        (crlf_wire [[79, 75], [], [72, 73]]))
      [fun _ => 255, fun _ => 255, fun _ => 255]).1._has_data = 0 ∧
    (ATMaster.process_each 128
      (ATMaster.feed 128 (ATMaster.fresh [79, 75] [69, 82, 82, 79, 82] [] [])
        (crlf_wire [[79, 75], [], [72, 73]]))
      [fun _ => 255, fun _ => 255, fun _ => 255]).2.map Prod.snd
      = List.zipWith (fun l d => some (delivered l d)) [[79, 75], [], [72, 73]]
          [fun _ => 255, fun _ => 255, fun _ => 255] :=
  C13_lines_drain 128 [79, 75] [69, 82, 82, 79, 82] [] [] [[79, 75], [], [72, 73]]
    [fun _ => 255, fun _ => 255, fun _ => 255] (by decide) (by decide) (by decide) rfl

/-! ## The ring buffer as a bounded FIFO queue -/

theorem ATMaster.buf_add_len_le (CAP : Nat) (s : ATMaster) (v : Nat) (h : s._buf_len ≤ CAP) :
    (ATMaster._buf_add CAP s v)._buf_len ≤ CAP := by
  by_cases h1 : s._buf_len < CAP
  · rw [ATMaster.buf_add_len CAP s v h1]
    omega
  · rw [ATMaster.buf_add_full CAP s v h1]
    exact h

theorem ATMaster.buf_take_len_le (CAP : Nat) (s : ATMaster) :
    (ATMaster._buf_take CAP s).2._buf_len ≤ s._buf_len := by
  by_cases h1 : s._buf_len > 0
  · simp [ATMaster._buf_take, h1]
  · simp [ATMaster._buf_take, h1]

theorem ATMaster.ring_run_len_le (CAP : Nat) (ops : List RingOp) :
    ∀ s : ATMaster, s._buf_len ≤ CAP → (ATMaster.ring_run CAP s ops).1._buf_len ≤ CAP := by
  induction ops with
  | nil => intro s h; exact h
  | cons op ops ih =>
    intro s h
    cases op with
    | put v => exact ih _ (ATMaster.buf_add_len_le CAP s v h)
    | take => exact ih _ (Nat.le_trans (ATMaster.buf_take_len_le CAP s) h)

theorem ATMaster.skip_wf (CAP : Nat) (s : ATMaster) (n : Nat) (hwf : ATMaster.wf CAP s)
    (hn : n ≤ s._buf_len) : ATMaster.wf CAP (ATMaster.skip CAP s n) := by
  obtain ⟨h1, h2, h3, h4⟩ := hwf
  refine ⟨h1, Nat.mod_lt _ (by omega), ?_, ?_⟩
  · show s._buf_len - n ≤ CAP
    omega
  · show s._buf_head = ((s._buf_tail + n) % CAP + (s._buf_len - n)) % CAP
    rw [Nat.mod_add_mod, h4]
    congr 1
    omega

theorem ATMaster.buf_take_fifo (CAP : Nat) (s : ATMaster) (hwf : ATMaster.wf CAP s) :
    (ATMaster._buf_take CAP s).1 = (fifo_take (ATMaster.contents CAP s)).1 ∧
    ATMaster.contents CAP (ATMaster._buf_take CAP s).2 = (fifo_take (ATMaster.contents CAP s)).2 ∧
    ATMaster.wf CAP (ATMaster._buf_take CAP s).2 := by
  by_cases hl : 0 < s._buf_len
  · rw [ATMaster.buf_take_eq CAP s hwf.2.1 hl]
    have h0 := ATMaster.contents_getD CAP s 0 hl
    have hs := ATMaster.contents_skip CAP s 1
    have hlen := ATMaster.contents_length CAP s
    cases hc : ATMaster.contents CAP s with
    | nil => rw [hc] at hlen; simp at hlen; omega
    | cons x rest =>
      rw [hc] at h0 hs
      refine ⟨?_, ?_, ATMaster.skip_wf CAP s 1 hwf hl⟩
      · show ATMaster.peek CAP s 0 = x
        rw [← h0]
        rfl
      · show ATMaster.contents CAP (ATMaster.skip CAP s 1) = rest
        rw [hs]
        rfl
  · have hl0 : s._buf_len = 0 := by omega
    have hc : ATMaster.contents CAP s = [] := by
      apply List.length_eq_zero.mp
      rw [ATMaster.contents_length, hl0]
    have ht : ATMaster._buf_take CAP s = (0, s) := by
      simp [ATMaster._buf_take, hl0]
    rw [ht, hc]
    exact ⟨rfl, rfl, hwf⟩

theorem ATMaster.buf_add_fifo (CAP : Nat) (s : ATMaster) (v : Nat) (hwf : ATMaster.wf CAP s) :
    ATMaster.contents CAP (ATMaster._buf_add CAP s v) = fifo_put CAP (ATMaster.contents CAP s) v := by
  unfold fifo_put
  rw [ATMaster.contents_length]
  by_cases h : s._buf_len < CAP
  · rw [if_pos h, ATMaster.buf_add_contents CAP s v hwf h]
  · rw [if_neg h, ATMaster.buf_add_full CAP s v h]

theorem ATMaster.ring_run_fifo (CAP : Nat) (ops : List RingOp) :
    ∀ s : ATMaster, ATMaster.wf CAP s →
      ATMaster.wf CAP (ATMaster.ring_run CAP s ops).1 ∧
      ATMaster.contents CAP (ATMaster.ring_run CAP s ops).1
        = (fifo_run CAP (ATMaster.contents CAP s) ops).1 ∧
      (ATMaster.ring_run CAP s ops).2 = (fifo_run CAP (ATMaster.contents CAP s) ops).2 := by
  induction ops with
  | nil => intro s h; exact ⟨h, rfl, rfl⟩
  | cons op ops ih =>
    intro s h
    cases op with
    | put v =>
      have := ih _ (ATMaster.buf_add_wf CAP s v h)
      rw [ATMaster.buf_add_fifo CAP s v h] at this
      exact this
    | take =>
      obtain ⟨t1, t2, t3⟩ := ATMaster.buf_take_fifo CAP s h
      obtain ⟨i1, i2, i3⟩ := ih _ t3
      rw [t2] at i2 i3
      refine ⟨i1, i2, ?_⟩
      show (ATMaster._buf_take CAP s).1 :: _ = (fifo_take _).1 :: _
      rw [t1, i3]

/-- C15: starting from an empty ring buffer, after any sequence of `_buf_add`
and `_buf_take` calls with any byte values the occupancy is at most `CAP` (and
at least 0: it is a natural number that `_buf_take` only lowers when it is
positive). -/
theorem C15_occupancy_bounded (CAP : Nat) (s : ATMaster) (ops : List RingOp)
    (hempty : s._buf_len = 0) :
    0 ≤ (ATMaster.ring_run CAP s ops).1._buf_len ∧
      (ATMaster.ring_run CAP s ops).1._buf_len ≤ CAP :=
  ⟨Nat.zero_le _, ATMaster.ring_run_len_le CAP ops s (by omega)⟩

/-- Witness of C15: with `CAP = 2`, three puts and a take, then two more puts,
from the fresh driver: the third and the last put are dropped. -/
theorem C15_occupancy_bounded_witness :
    (ATMaster.ring_run 2 (ATMaster.fresh [79, 75] [69, 82, 82, 79, 82] [] [])
      [RingOp.put 1, RingOp.put 2, RingOp.put 3, RingOp.take, RingOp.put 4,
        RingOp.put 5]).1._buf_len = 2 ∧
    0 ≤ (ATMaster.ring_run 2 (ATMaster.fresh [79, 75] [69, 82, 82, 79, 82] [] [])
      [RingOp.put 1, RingOp.put 2, RingOp.put 3, RingOp.take, RingOp.put 4,
        RingOp.put 5]).1._buf_len ∧
    (ATMaster.ring_run 2 (ATMaster.fresh [79, 75] [69, 82, 82, 79, 82] [] [])
      [RingOp.put 1, RingOp.put 2, RingOp.put 3, RingOp.take, RingOp.put 4,
        RingOp.put 5]).1._buf_len ≤ 2 :=
  ⟨by decide,
   C15_occupancy_bounded 2 (ATMaster.fresh [79, 75] [69, 82, 82, 79, 82] [] [])
     [RingOp.put 1, RingOp.put 2, RingOp.put 3, RingOp.take, RingOp.put 4, RingOp.put 5] rfl⟩

/-- C16: the ring buffer refines the bounded FIFO queue of capacity `CAP`.  In
every state reached from an empty, well-formed buffer by `_buf_add` and
`_buf_take`, head and tail are below `CAP` and head is `(tail + occupancy) mod
CAP`; the occupied bytes and the bytes returned so far are those of the queue
run on the same operations; `_buf_add` with room appends at the back and on a
full buffer changes nothing; `_buf_take` on a non-empty buffer returns and
removes the oldest byte and on an empty buffer returns 0 and changes nothing. -/
theorem C16_ring_refines_fifo (CAP : Nat) (s0 : ATMaster) (ops : List RingOp)
    (hwf : ATMaster.wf CAP s0) (hempty : s0._buf_len = 0) :
    (ATMaster.ring_run CAP s0 ops).1._buf_head < CAP ∧
    (ATMaster.ring_run CAP s0 ops).1._buf_tail < CAP ∧
    (ATMaster.ring_run CAP s0 ops).1._buf_head
      = ((ATMaster.ring_run CAP s0 ops).1._buf_tail
          + (ATMaster.ring_run CAP s0 ops).1._buf_len) % CAP ∧
    ATMaster.contents CAP (ATMaster.ring_run CAP s0 ops).1 = (fifo_run CAP [] ops).1 ∧
    (ATMaster.ring_run CAP s0 ops).2 = (fifo_run CAP [] ops).2 ∧
    (∀ v, (ATMaster.ring_run CAP s0 ops).1._buf_len < CAP →
      ATMaster.contents CAP (ATMaster._buf_add CAP (ATMaster.ring_run CAP s0 ops).1 v)
        = ATMaster.contents CAP (ATMaster.ring_run CAP s0 ops).1 ++ [v]) ∧
    (∀ v, (ATMaster.ring_run CAP s0 ops).1._buf_len = CAP →
      ATMaster._buf_add CAP (ATMaster.ring_run CAP s0 ops).1 v
        = (ATMaster.ring_run CAP s0 ops).1) ∧
    (∀ x rest, ATMaster.contents CAP (ATMaster.ring_run CAP s0 ops).1 = x :: rest →
      (ATMaster._buf_take CAP (ATMaster.ring_run CAP s0 ops).1).1 = x ∧
      ATMaster.contents CAP (ATMaster._buf_take CAP (ATMaster.ring_run CAP s0 ops).1).2
        = rest) ∧
    ((ATMaster.ring_run CAP s0 ops).1._buf_len = 0 →
      ATMaster._buf_take CAP (ATMaster.ring_run CAP s0 ops).1
        = (0, (ATMaster.ring_run CAP s0 ops).1)) := by
  obtain ⟨r1, r2, r3⟩ := ATMaster.ring_run_fifo CAP ops s0 hwf
  have hc0 : ATMaster.contents CAP s0 = [] := by
    apply List.length_eq_zero.mp
    rw [ATMaster.contents_length, hempty]
  rw [hc0] at r2 r3
  refine ⟨r1.1, r1.2.1, r1.2.2.2, r2, r3, fun v h => ATMaster.buf_add_contents CAP _ v r1 h,
    fun v h => ATMaster.buf_add_full CAP _ v (by omega), fun x rest hx => ?_, fun h => ?_⟩
  · obtain ⟨t1, t2, -⟩ := ATMaster.buf_take_fifo CAP _ r1
    rw [hx] at t1 t2
    exact ⟨t1, t2⟩
  · simp [ATMaster._buf_take, h]

/-- Witness of C16: `CAP = 2`, the same operations as for C15; the queue ends
as `[2, 4]` and the one take returned `1`. -/
theorem C16_ring_refines_fifo_witness :
    ATMaster.contents 2 (ATMaster.ring_run 2 (ATMaster.fresh [79, 75] [69, 82, 82, 79, 82] [] [])
      [RingOp.put 1, RingOp.put 2, RingOp.put 3, RingOp.take, RingOp.put 4,
        RingOp.put 5]).1 = [2, 4] ∧
    (ATMaster.ring_run 2 (ATMaster.fresh [79, 75] [69, 82, 82, 79, 82] [] [])
      [RingOp.put 1, RingOp.put 2, RingOp.put 3, RingOp.take, RingOp.put 4,
        RingOp.put 5]).2 = [1] :=
  ⟨(C16_ring_refines_fifo 2 (ATMaster.fresh [79, 75] [69, 82, 82, 79, 82] [] [])
      [RingOp.put 1, RingOp.put 2, RingOp.put 3, RingOp.take, RingOp.put 4, RingOp.put 5]
      (by decide) rfl).2.2.2.1.trans (by decide),
   (C16_ring_refines_fifo 2 (ATMaster.fresh [79, 75] [69, 82, 82, 79, 82] [] [])
      [RingOp.put 1, RingOp.put 2, RingOp.put 3, RingOp.take, RingOp.put 4, RingOp.put 5]
      (by decide) rfl).2.2.2.2.1.trans (by decide)⟩

/-! ## Claims on the ring buffer, termination and the last received byte -/

/-- C17: `buf_compare` returns a value and no state (the source assigns only
its locals); on a ring with `tail < CAP` and a null-terminated `value` it
returns true exactly when every offset below the length of `value` is below
the occupancy and holds the byte of `value` at `(tail + offset) mod CAP`, and,
with the exact flag, the occupancy equals the length of `value`. -/
theorem C17_buf_compare_spec (CAP : Nat) (s : ATMaster) (value : List Nat)
    (exact_length : Bool) (ht : s._buf_tail < CAP) (hz : ∀ b ∈ value, b ≠ 0) :
    ATMaster.buf_compare CAP s value exact_length = true ↔
      (∀ j, j < value.length →
        j < s._buf_len ∧ s._buf ((s._buf_tail + j) % CAP) = value.getD j 0) ∧
      (exact_length = true → s._buf_len = value.length) := by
  rw [ATMaster.buf_compare_iff CAP s ht value exact_length hz]
  constructor
  · rintro ⟨h1, h2⟩
    refine ⟨fun j hj => ⟨(h1 j hj).1, (h1 j hj).2.symm⟩, fun he => ?_⟩
    have hle := h2 he
    by_cases h0 : value.length = 0
    · omega
    · have := (h1 (value.length - 1) (by omega)).1
      omega
  · rintro ⟨h1, h2⟩
    exact ⟨fun j hj => ⟨(h1 j hj).1, (h1 j hj).2.symm⟩, fun he => by rw [h2 he]⟩

/-- Witness of C17: on the scenario driver holding `"OK\0"`, `"OK"` matches
without the exact flag and does not match with it. -/
theorem C17_buf_compare_spec_witness :
    scenario_ok_line._buf_tail < 128 ∧ (∀ b ∈ [79, 75], b ≠ 0) ∧
    ATMaster.buf_compare 128 scenario_ok_line [79, 75] false = true ∧
    ¬ ATMaster.buf_compare 128 scenario_ok_line [79, 75] true = true :=
  ⟨by decide, by decide,
   (C17_buf_compare_spec 128 scenario_ok_line [79, 75] false (by decide) (by decide)).mpr
     (by decide),
   fun h => absurd
    ((C17_buf_compare_spec 128 scenario_ok_line [79, 75] true (by decide) (by decide)).mp h).2
    (by decide)⟩

theorem ATMaster.buf_take_len (CAP : Nat) (s : ATMaster) (h : s._buf_len > 0) :
    (ATMaster._buf_take CAP s).2._buf_len = s._buf_len - 1 := by
  simp [ATMaster._buf_take, h]

theorem ATMaster.drain_takes_le (CAP : Nat) (s : ATMaster) (c : Nat) :
    ATMaster.drain_takes CAP s c ≤ s._buf_len + (if c = 0 then 0 else 1) := by
  induction s, c using ATMaster.drain_takes.induct CAP with
  | case1 s =>
    rw [ATMaster.drain_takes.eq_def]
    simp
  | case2 s c h ih =>
    rw [ATMaster.drain_takes, if_neg h, if_neg h]
    by_cases hl : s._buf_len > 0
    · rw [ATMaster.buf_take_len CAP s hl] at ih
      have : (if (ATMaster._buf_take CAP s).1 = 0 then 0 else 1) ≤ 1 := by
        split_ifs <;> omega
      omega
    · have h1 : ATMaster._buf_take CAP s = (0, s) := by
        simp [ATMaster._buf_take, hl]
      rw [h1] at ih ⊢
      have ih' : ATMaster.drain_takes CAP s 0 ≤ s._buf_len + 0 := by simpa using ih
      show ATMaster.drain_takes CAP s 0 + 1 ≤ s._buf_len + 1
      omega

theorem ATMaster.drain_len_le (CAP : Nat) (s : ATMaster) (c : Nat) (d : Dest) (i : Nat) :
    (ATMaster.drain CAP s c d i).1._buf_len ≤ s._buf_len := by
  induction s, c, d, i using ATMaster.drain.induct CAP with
  | case1 s d i =>
    rw [ATMaster.drain.eq_def]
    simp
  | case2 s c i h d ih =>
    rw [ATMaster.drain, if_neg h]
    exact Nat.le_trans ih (ATMaster.buf_take_len_le CAP s)
  | case3 s c i h ih =>
    rw [ATMaster.drain, if_neg h]
    exact Nat.le_trans ih (ATMaster.buf_take_len_le CAP s)

/-- C18: `process` is a total function of the driver state (its drain loop is
defined by recursion that decreases with the occupancy), also when the pending
counter is positive and no sentinel is buffered; it makes at most
`occupancy + 1` calls of `_buf_take`, and the occupancy it leaves is a natural
number no larger than before. -/
theorem C18_process_terminates (CAP : Nat) (s : ATMaster) (dest : Dest) :
    (∃ kind state out, ATMaster.process CAP s dest = (kind, state, out)) ∧
    ATMaster.process_takes CAP s ≤ s._buf_len + 1 ∧
    (ATMaster.process CAP s dest).2.1._buf_len ≤ s._buf_len := by
  obtain ⟨-, -, hl, -, -⟩ := ATMaster.classify_buf CAP { s with _has_data := s._has_data - 1 }
  have hl' : (ATMaster.classify CAP { s with _has_data := s._has_data - 1 }).2._buf_len
      = s._buf_len := hl
  refine ⟨⟨_, _, _, rfl⟩, ?_, ?_⟩
  · unfold ATMaster.process_takes
    by_cases h0 : s._has_data = 0
    · rw [if_pos h0]
      omega
    · rw [if_neg h0]
      by_cases h1 : (ATMaster.classify CAP { s with _has_data := s._has_data - 1 }).2._buf_len = 0
      · simp only [h1, ne_eq, not_true_eq_false, if_false]
        omega
      · simp only [h1, ne_eq, not_false_eq_true, if_true]
        have hd := ATMaster.drain_takes_le CAP
          (ATMaster._buf_take CAP
            (ATMaster.classify CAP { s with _has_data := s._has_data - 1 }).2).2
          (ATMaster._buf_take CAP
            (ATMaster.classify CAP { s with _has_data := s._has_data - 1 }).2).1
        have ht : (ATMaster._buf_take CAP
            (ATMaster.classify CAP { s with _has_data := s._has_data - 1 }).2).2._buf_len
            = s._buf_len - 1 := by
          have hpos : (ATMaster.classify CAP
              { s with _has_data := s._has_data - 1 }).2._buf_len > 0 := by omega
          rw [ATMaster.buf_take_len CAP _ hpos, hl']
        rw [ht] at hd
        have : (if (ATMaster._buf_take CAP
            (ATMaster.classify CAP { s with _has_data := s._has_data - 1 }).2).1 = 0
            then 0 else 1) ≤ 1 := by
          split_ifs <;> omega
        omega
  · by_cases h0 : s._has_data = 0
    · simp only [ATMaster.process, if_pos h0]
      exact Nat.le_refl _
    · by_cases h1 : (ATMaster.classify CAP { s with _has_data := s._has_data - 1 }).2._buf_len = 0
      · simp only [ATMaster.process, if_neg h0, h1, ne_eq, not_true_eq_false, if_false]
        omega
      · simp only [ATMaster.process, if_neg h0, h1, ne_eq, not_false_eq_true, if_true]
        refine Nat.le_trans (ATMaster.drain_len_le CAP _ _ dest 0) ?_
        exact Nat.le_trans (ATMaster.buf_take_len_le CAP _) (Nat.le_of_eq hl')

/-- Witness of C18: the pending counter is 1 and the full buffer of two bytes
holds no sentinel; `process` makes three `_buf_take` calls, delivers `"AB\0"`
and leaves the buffer empty. -/
theorem C18_process_terminates_witness :
    scenario_no_sentinel._has_data = 1 ∧
    ATMaster.contents 2 scenario_no_sentinel = [65, 66] ∧
    ATMaster.process_takes 2 scenario_no_sentinel ≤ scenario_no_sentinel._buf_len + 1 ∧
    ATMaster.process_takes 2 scenario_no_sentinel = 3 ∧
    (ATMaster.process 2 scenario_no_sentinel (some (fun _ => 255))).2.1._buf_len = 0 ∧
    Option.map (fun d => (List.range 3).map d)
      (ATMaster.process 2 scenario_no_sentinel (some (fun _ => 255))).2.2
        = some [65, 66, 0] :=
  ⟨by decide, by decide,
   (C18_process_terminates 2 scenario_no_sentinel (some (fun _ => 255))).2.1,
   by
    simp [scenario_no_sentinel, scenario_full, ATMaster.process_takes, ATMaster.drain_takes,
      ATMaster.feed, ATMaster.fresh, ATMaster.ctor, ATMaster.zeroed, ATMaster.set_line_mode,
      ATMaster.set_expected_length, ATMaster._rx_irq, ATMaster._buf_add, ATMaster.classify,
      ATMaster.buf_compare, ATMaster.buf_compare_loop, ATMaster._buf_take, store, UINT32_MOD,
      CStrPtr.chars],
   by
    simp [scenario_no_sentinel, scenario_full, ATMaster.process, ATMaster.drain,
      ATMaster.feed, ATMaster.fresh, ATMaster.ctor, ATMaster.zeroed, ATMaster.set_line_mode,
      ATMaster.set_expected_length, ATMaster._rx_irq, ATMaster._buf_add, ATMaster.classify,
      ATMaster.buf_compare, ATMaster.buf_compare_loop, ATMaster._buf_take, store, UINT32_MOD,
      CStrPtr.chars],
   by
    simp [scenario_no_sentinel, scenario_full, ATMaster.process, ATMaster.drain,
      ATMaster.feed, ATMaster.fresh, ATMaster.ctor, ATMaster.zeroed, ATMaster.set_line_mode,
      ATMaster.set_expected_length, ATMaster._rx_irq, ATMaster._buf_add, ATMaster.classify,
      ATMaster.buf_compare, ATMaster.buf_compare_loop, ATMaster._buf_take, store, UINT32_MOD,
      CStrPtr.chars, List.range, List.range.loop]⟩

/-- C19 (the code does otherwise): after `'\r'`, `'\r'` in CRLF mode the ring
buffer holds one `'\r'` but the partial-message counter is still 0: the branch
commits the byte with `_buf_add` and does not count it, so the counter is not
the number of bytes written for the accumulating message. -/
theorem C19_double_cr_not_counted :
    ATMaster.contents 128 scenario_double_cr = [13] ∧
    scenario_double_cr._buf_message_len = 0 ∧
    scenario_double_cr._buf_message_len ≠ (ATMaster.contents 128 scenario_double_cr).length := by
  decide

theorem ATMaster.rx_last (CAP : Nat) (s : ATMaster) (b : Nat) :
    (s._line_mode = AT_LINE_CRLF → (ATMaster._rx_irq CAP s b)._last_received_char = b) ∧
    (s._line_mode ≠ AT_LINE_CRLF →
      (ATMaster._rx_irq CAP s b)._last_received_char = s._last_received_char) := by
  constructor
  · intro hm
    exact (ATMaster.rx_crlf_fields CAP s b hm).1
  · intro hm
    unfold ATMaster._rx_irq
    split
    · rename_i h
      exact absurd h hm
    · split_ifs
      · exact (ATMaster.buf_add_fields CAP s 0).2.2.2.1
      · exact (ATMaster.buf_add_fields CAP s b).2.2.2.1
    · simp only
      split_ifs
      · exact ((ATMaster.buf_add_fields CAP _ 0).2.2.2.1).trans
          (ATMaster.buf_add_fields CAP s b).2.2.2.1
      · exact (ATMaster.buf_add_fields CAP s b).2.2.2.1

theorem ATMaster.classify_last_mode (CAP : Nat) (s : ATMaster) :
    (ATMaster.classify CAP s).2._last_received_char = s._last_received_char ∧
      (ATMaster.classify CAP s).2._line_mode = s._line_mode := by
  rcases ATMaster.classify_snd CAP s with h | h <;> rw [h] <;> exact ⟨rfl, rfl⟩

theorem ATMaster.process_last_mode (CAP : Nat) (s : ATMaster) (dest : Dest) :
    (ATMaster.process CAP s dest).2.1._last_received_char = s._last_received_char ∧
      (ATMaster.process CAP s dest).2.1._line_mode = s._line_mode := by
  obtain ⟨c1, c2⟩ := ATMaster.classify_last_mode CAP { s with _has_data := s._has_data - 1 }
  by_cases h0 : s._has_data = 0
  · have e : (ATMaster.process CAP s dest).2.1 = s := by
      simp only [ATMaster.process, if_pos h0]
    rw [e]
    exact ⟨rfl, rfl⟩
  · by_cases hl : (ATMaster.classify CAP { s with _has_data := s._has_data - 1 }).2._buf_len = 0
    · have e : (ATMaster.process CAP s dest).2.1
          = (ATMaster.classify CAP { s with _has_data := s._has_data - 1 }).2 := by
        simp only [ATMaster.process, if_neg h0, hl, ne_eq, not_true_eq_false, if_false]
      rw [e]
      exact ⟨c1, c2⟩
    · have e : (ATMaster.process CAP s dest).2.1
          = (ATMaster.drain CAP
              (ATMaster._buf_take CAP
                (ATMaster.classify CAP { s with _has_data := s._has_data - 1 }).2).2
              (ATMaster._buf_take CAP
                (ATMaster.classify CAP { s with _has_data := s._has_data - 1 }).2).1
              dest 0).1 := by
        simp only [ATMaster.process, if_neg h0, hl, ne_eq, not_false_eq_true, if_true]
      rw [e]
      obtain ⟨-, -, -, d4, d5⟩ := ATMaster.drain_fields CAP
        (ATMaster._buf_take CAP
          (ATMaster.classify CAP { s with _has_data := s._has_data - 1 }).2).2
        (ATMaster._buf_take CAP
          (ATMaster.classify CAP { s with _has_data := s._has_data - 1 }).2).1 dest 0
      obtain ⟨-, -, -, t4, t5⟩ := ATMaster.buf_take_fields CAP
        (ATMaster.classify CAP { s with _has_data := s._has_data - 1 }).2
      exact ⟨(d4.trans t4).trans c1,
        ((ATMaster.regs_line_mode _ _ d5).trans (ATMaster.regs_line_mode _ _ t5)).trans c2⟩

theorem ATMaster.set_line_mode_last_mode (CAP : Nat) (s : ATMaster) (m : _AT_LINE_MODE) :
    (ATMaster.set_line_mode CAP s m)._last_received_char = s._last_received_char ∧
      (ATMaster.set_line_mode CAP s m)._line_mode = m := by
  obtain ⟨-, -, -, f4, f5⟩ := ATMaster.buf_add_fields CAP { s with _line_mode := m } 0
  unfold ATMaster.set_line_mode
  simp only
  split_ifs
  · exact ⟨f4, ATMaster.regs_line_mode _ _ f5⟩
  · exact ⟨rfl, rfl⟩
  · exact ⟨rfl, rfl⟩

theorem ATMaster.step_last_mode (CAP : Nat) (s : ATMaster) (op : Op) (ops : List Op) :
    last_crlf_arrival s._line_mode s._last_received_char (op :: ops)
      = last_crlf_arrival (ATMaster.step CAP s op).1._line_mode
          (ATMaster.step CAP s op).1._last_received_char ops := by
  cases op with
  | rx recv =>
    have hmode : (ATMaster._rx_irq CAP s recv)._line_mode = s._line_mode :=
      ATMaster.regs_line_mode _ _ (ATMaster.rx_regs CAP s recv)
    have hlast : (ATMaster._rx_irq CAP s recv)._last_received_char
        = if s._line_mode = AT_LINE_CRLF then recv else s._last_received_char := by
      by_cases hm : s._line_mode = AT_LINE_CRLF
      · rw [if_pos hm]
        exact (ATMaster.rx_last CAP s recv).1 hm
      · rw [if_neg hm]
        exact (ATMaster.rx_last CAP s recv).2 hm
    show last_crlf_arrival s._line_mode _ ops = last_crlf_arrival
      (ATMaster._rx_irq CAP s recv)._line_mode (ATMaster._rx_irq CAP s recv)._last_received_char
      ops
    rw [hmode, hlast]
  | process dest =>
    obtain ⟨p1, p2⟩ := ATMaster.process_last_mode CAP s dest
    show last_crlf_arrival s._line_mode s._last_received_char ops = last_crlf_arrival
      (ATMaster.process CAP s dest).2.1._line_mode
      (ATMaster.process CAP s dest).2.1._last_received_char ops
    rw [p1, p2]
  | set_line_mode m =>
    obtain ⟨p1, p2⟩ := ATMaster.set_line_mode_last_mode CAP s m
    show last_crlf_arrival m s._last_received_char ops = last_crlf_arrival
      (ATMaster.set_line_mode CAP s m)._line_mode
      (ATMaster.set_line_mode CAP s m)._last_received_char ops
    rw [p1, p2]
  | set_expected_length n => rfl
  | set_custom c => rfl
  | set_init p => rfl

theorem ATMaster.run_last_mode (CAP : Nat) (ops : List Op) :
    ∀ s : ATMaster,
      (ATMaster.run CAP s ops).1._line_mode
        = (last_crlf_arrival s._line_mode s._last_received_char ops).1 ∧
      (ATMaster.run CAP s ops).1._last_received_char
        = (last_crlf_arrival s._line_mode s._last_received_char ops).2 := by
  induction ops with
  | nil => intro s; exact ⟨rfl, rfl⟩
  | cons op ops ih =>
    intro s
    rw [ATMaster.step_last_mode CAP s op ops]
    exact ih (ATMaster.step CAP s op).1

/-- C20, as the code has it: the byte-arrival handler stores the byte it
handled in the last-received-byte field in CRLF mode only; in LF and LENGTH
mode it leaves the field as it was, and so do `set_line_mode`, `process` and
the configuration writes.  Hence after any sequence of driver calls the field
holds the byte of the latest arrival that was handled under CRLF mode (its
initial value when there was none), which is what the CRLF framer tests after
a switch back from LF or LENGTH mode. -/
theorem C20_last_received_byte (CAP : Nat) (s : ATMaster) (b : Nat) (ops : List Op) :
    (s._line_mode = AT_LINE_CRLF → (ATMaster._rx_irq CAP s b)._last_received_char = b) ∧
    (s._line_mode = AT_LINE_LF →
      (ATMaster._rx_irq CAP s b)._last_received_char = s._last_received_char) ∧
    (s._line_mode = AT_LINE_LENGTH →
      (ATMaster._rx_irq CAP s b)._last_received_char = s._last_received_char) ∧
    (∀ new_mode,
      (ATMaster.set_line_mode CAP s new_mode)._last_received_char = s._last_received_char) ∧
    (∀ dest, (ATMaster.process CAP s dest).2.1._last_received_char = s._last_received_char) ∧
    (∀ n, (ATMaster.set_expected_length s n)._last_received_char = s._last_received_char) ∧
    (∀ p, (ATMaster.set_init_prefix s p)._last_received_char = s._last_received_char) ∧
    (∀ c, (ATMaster.set_custom_prefix s c)._last_received_char = s._last_received_char) ∧
    (ATMaster.run CAP s ops).1._last_received_char
      = (last_crlf_arrival s._line_mode s._last_received_char ops).2 ∧
    (ATMaster.run CAP s ops).1._line_mode
      = (last_crlf_arrival s._line_mode s._last_received_char ops).1 :=
  ⟨(ATMaster.rx_last CAP s b).1,
   fun h => (ATMaster.rx_last CAP s b).2 (by rw [h]; decide),
   fun h => (ATMaster.rx_last CAP s b).2 (by rw [h]; decide),
   fun m => (ATMaster.set_line_mode_last_mode CAP s m).1,
   fun d => (ATMaster.process_last_mode CAP s d).1,
   fun _ => rfl, fun _ => rfl, fun _ => rfl,
   (ATMaster.run_last_mode CAP ops s).2, (ATMaster.run_last_mode CAP ops s).1⟩

/-- C20 as stated fails: in LF mode the field still holds 0 after `'A'` was
handled; and after `'\r'` in CRLF mode, `'B'` in LF mode and a switch back,
the CRLF framer takes the `'\n'` for a terminator, testing the `'\r'` of two
arrivals before. -/
theorem C20_last_received_byte_counterexample :
    (ATMaster._rx_irq 128
      (ATMaster.set_line_mode 128 (ATMaster.fresh [79, 75] [69, 82, 82, 79, 82] [] [])
        AT_LINE_LF) 65)._last_received_char ≠ 65 ∧
    scenario_stale_cr._has_data = 1 ∧
    ATMaster.contents 128 scenario_stale_cr = [66, 0] := by
  decide

/-! ## Pending counter and sentinels -/

theorem split_first_zero (l : List Nat) (h : 0 < l.count 0) :
    ∃ msg rest, l = msg ++ 0 :: rest ∧ ∀ b ∈ msg, b ≠ 0 := by
  induction l with
  | nil => simp at h
  | cons a t ih =>
    by_cases ha : a = 0
    · exact ⟨[], t, by rw [ha]; rfl, fun b hb => absurd hb (List.not_mem_nil b)⟩
    · rw [List.count_cons_of_ne (fun e => ha e.symm)] at h
      obtain ⟨msg, rest, e, hz⟩ := ih h
      refine ⟨a :: msg, rest, by rw [e]; rfl, fun b hb => ?_⟩
      rcases List.mem_cons.mp hb with hb | hb
      · rw [hb]; exact ha
      · exact hz b hb

theorem ATMaster.count_le_len (CAP : Nat) (s : ATMaster) :
    (ATMaster.contents CAP s).count 0 ≤ s._buf_len := by
  rw [← ATMaster.contents_length CAP s]
  exact List.count_le_length _ _

/-- A state that differs from a paired one in fields outside the ring and the
pending counter is paired. -/
theorem ATMaster.paired_congr (CAP : Nat) (s t : ATMaster) (hb : t._buf = s._buf)
    (ht : t._buf_tail = s._buf_tail) (hl : t._buf_len = s._buf_len)
    (hh : t._buf_head = s._buf_head) (hd : t._has_data = s._has_data)
    (hp : ATMaster.paired CAP s) : ATMaster.paired CAP t := by
  obtain ⟨⟨w1, w2, w3, w4⟩, hc⟩ := hp
  refine ⟨⟨by rw [hh]; exact w1, by rw [ht]; exact w2, by rw [hl]; exact w3,
    by rw [hh, ht, hl]; exact w4⟩, ?_⟩
  rw [hd, ATMaster.contents_congr CAP s t hb ht hl]
  exact hc

theorem ATMaster.paired_process (CAP : Nat) (s : ATMaster) (dest : Dest)
    (hp : ATMaster.paired CAP s) : ATMaster.paired CAP (ATMaster.process CAP s dest).2.1 := by
  by_cases h0 : s._has_data = 0
  · rw [show ATMaster.process CAP s dest = (AT_RESPONSE_NONE, s, dest) by
      simp only [ATMaster.process, if_pos h0]]
    exact hp
  · obtain ⟨msg, rest, hc, hz⟩ := split_first_zero (ATMaster.contents CAP s)
      (by rw [← hp.2]; omega)
    have hf := ATMaster.framed_of_contents CAP s msg rest hc hz
    obtain ⟨hb, htl, hln, hh, hhd⟩ :=
      ATMaster.classify_buf CAP { s with _has_data := s._has_data - 1 }
    have hwf2 : ATMaster.wf CAP
        (ATMaster.classify CAP { s with _has_data := s._has_data - 1 }).2 := by
      obtain ⟨w1, w2, w3, w4⟩ := hp.1
      exact ⟨by rw [hh]; exact w1, by rw [htl]; exact w2, by rw [hln]; exact w3,
        by rw [hh, htl, hln]; exact w4⟩
    have hstate : (ATMaster.process CAP s dest).2.1 = ATMaster.skip CAP
        (ATMaster.classify CAP { s with _has_data := s._has_data - 1 }).2 (msg.length + 1) := by
      cases dest with
      | none => rw [ATMaster.process_framed_none CAP s msg hp.1.2.1 h0 hf]
      | some d => rw [ATMaster.process_framed_some CAP s msg d hp.1.2.1 h0 hf]
    have hlen : msg.length + 1 ≤ s._buf_len := hf.1
    rw [hstate]
    refine ⟨ATMaster.skip_wf CAP _ _ hwf2 (by rw [hln]; exact hlen), ?_⟩
    rw [ATMaster.contents_skip, ATMaster.contents_congr CAP _ _ hb htl hln]
    show (ATMaster.classify CAP _).2._has_data
      = (List.drop (msg.length + 1) (ATMaster.contents CAP s)).count 0
    rw [hhd, hc]
    have hd : List.drop (msg.length + 1) (msg ++ 0 :: rest) = rest := by
      have e : msg ++ 0 :: rest = (msg ++ [0]) ++ rest := by simp
      rw [e]
      exact List.drop_left' (by simp)
    rw [hd]
    show s._has_data - 1 = _
    rw [hp.2, hc, List.count_append, List.count_cons_self,
      List.count_eq_zero_of_not_mem (fun hm => hz 0 hm rfl)]
    omega

theorem ATMaster.buf_add_account (CAP : Nat) (s : ATMaster) (v : Nat) (hwf : ATMaster.wf CAP s) :
    ATMaster.wf CAP (ATMaster._buf_add CAP s v) ∧
    (ATMaster.contents CAP (ATMaster._buf_add CAP s v)).count 0
      = (ATMaster.contents CAP s).count 0 + zero_stored CAP s._buf_len v ∧
    (ATMaster._buf_add CAP s v)._buf_len = len_after CAP s._buf_len := by
  refine ⟨ATMaster.buf_add_wf CAP s v hwf, ?_, ?_⟩
  · by_cases h : s._buf_len < CAP
    · rw [ATMaster.buf_add_contents CAP s v hwf h, List.count_append]
      by_cases hv : v = 0
      · simp [zero_stored, h, hv]
      · simp [zero_stored, hv, List.count_cons_of_ne (fun e : 0 = v => hv e.symm)]
    · rw [ATMaster.buf_add_full CAP s v h]
      simp [zero_stored, h]
  · by_cases h : s._buf_len < CAP
    · rw [ATMaster.buf_add_len CAP s v h]
      simp [len_after, h]
    · rw [ATMaster.buf_add_full CAP s v h]
      simp [len_after, h]

theorem ATMaster.rx_account (CAP : Nat) (s : ATMaster) (b : Nat) (hwf : ATMaster.wf CAP s) :
    ATMaster.accounted CAP s (ATMaster._rx_irq CAP s b)
      (ATMaster.zeros_stored CAP s (Op.rx b)) (ATMaster.pending_added s (Op.rx b)) := by
  cases hm : s._line_mode with
  | AT_LINE_CRLF =>
    by_cases h13 : b = 13
    · by_cases hl : s._last_received_char = 13
      · have e : ATMaster._rx_irq CAP s b =
            { ATMaster._buf_add CAP s s._last_received_char with _last_received_char := b } := by
          simp [ATMaster._rx_irq, hm, h13, hl]
        have hz : ATMaster.zeros_stored CAP s (Op.rx b)
            = zero_stored CAP s._buf_len s._last_received_char := by
          simp [ATMaster.zeros_stored, hm, h13, hl]
        have hpa : ATMaster.pending_added s (Op.rx b) = 0 := by
          simp [ATMaster.pending_added, hm, h13]
        obtain ⟨a1, a2, -⟩ := ATMaster.buf_add_account CAP s s._last_received_char hwf
        rw [e, hz, hpa]
        exact ⟨a1, a2, (ATMaster.buf_add_fields CAP s _).2.1⟩
      · have e : ATMaster._rx_irq CAP s b = { s with _last_received_char := b } := by
          simp [ATMaster._rx_irq, hm, h13, hl]
        have hz : ATMaster.zeros_stored CAP s (Op.rx b) = 0 := by
          simp [ATMaster.zeros_stored, hm, h13, hl]
        have hpa : ATMaster.pending_added s (Op.rx b) = 0 := by
          simp [ATMaster.pending_added, hm, h13]
        rw [e, hz, hpa]
        exact ⟨hwf, rfl, rfl⟩
    · by_cases ht : b = 10 ∧ s._last_received_char = 13
      · have e : ATMaster._rx_irq CAP s b =
            { ATMaster._buf_add CAP s 0 with
              _has_data := ((ATMaster._buf_add CAP s 0)._has_data + 1) % UINT32_MOD
              _buf_message_len := 0
              _last_received_char := b } := by
          simp [ATMaster._rx_irq, hm, h13, ht]
        have hz : ATMaster.zeros_stored CAP s (Op.rx b) = zero_stored CAP s._buf_len 0 := by
          simp [ATMaster.zeros_stored, hm, h13, ht]
        have hpa : ATMaster.pending_added s (Op.rx b) = 1 := by
          simp [ATMaster.pending_added, hm, h13, ht]
        obtain ⟨a1, a2, -⟩ := ATMaster.buf_add_account CAP s 0 hwf
        rw [e, hz, hpa]
        refine ⟨a1, a2, ?_⟩
        show ((ATMaster._buf_add CAP s 0)._has_data + 1) % UINT32_MOD = _
        rw [(ATMaster.buf_add_fields CAP s 0).2.1]
        rfl
      · have e : ATMaster._rx_irq CAP s b =
            { ATMaster._buf_add CAP s b with
              _buf_message_len := ((ATMaster._buf_add CAP s b)._buf_message_len + 1) % UINT32_MOD
              _last_received_char := b } := by
          simp only [ATMaster._rx_irq, hm, if_neg h13, if_neg ht]
        have hz : ATMaster.zeros_stored CAP s (Op.rx b) = zero_stored CAP s._buf_len b := by
          simp only [ATMaster.zeros_stored, hm, if_neg h13, if_neg ht]
        have hpa : ATMaster.pending_added s (Op.rx b) = 0 := by
          simp only [ATMaster.pending_added, hm, if_neg h13, if_neg ht]
        obtain ⟨a1, a2, -⟩ := ATMaster.buf_add_account CAP s b hwf
        rw [e, hz, hpa]
        exact ⟨a1, a2, (ATMaster.buf_add_fields CAP s b).2.1⟩
  | AT_LINE_LF =>
    by_cases h10 : b = 10
    · have e : ATMaster._rx_irq CAP s b =
          { ATMaster._buf_add CAP s 0 with
            _has_data := ((ATMaster._buf_add CAP s 0)._has_data + 1) % UINT32_MOD
            _buf_message_len := 0 } := by
        simp only [ATMaster._rx_irq, hm, if_pos h10]
      have hz : ATMaster.zeros_stored CAP s (Op.rx b) = zero_stored CAP s._buf_len 0 := by
        simp only [ATMaster.zeros_stored, hm, if_pos h10]
      have hpa : ATMaster.pending_added s (Op.rx b) = 1 := by
        simp only [ATMaster.pending_added, hm, if_pos h10]
      obtain ⟨a1, a2, -⟩ := ATMaster.buf_add_account CAP s 0 hwf
      rw [e, hz, hpa]
      refine ⟨a1, a2, ?_⟩
      show ((ATMaster._buf_add CAP s 0)._has_data + 1) % UINT32_MOD = _
      rw [(ATMaster.buf_add_fields CAP s 0).2.1]
      rfl
    · have e : ATMaster._rx_irq CAP s b =
          { ATMaster._buf_add CAP s b with
            _buf_message_len := ((ATMaster._buf_add CAP s b)._buf_message_len + 1)
              % UINT32_MOD } := by
        simp only [ATMaster._rx_irq, hm, if_neg h10]
      have hz : ATMaster.zeros_stored CAP s (Op.rx b) = zero_stored CAP s._buf_len b := by
        simp only [ATMaster.zeros_stored, hm, if_neg h10]
      have hpa : ATMaster.pending_added s (Op.rx b) = 0 := by
        simp only [ATMaster.pending_added, hm, if_neg h10]
      obtain ⟨a1, a2, -⟩ := ATMaster.buf_add_account CAP s b hwf
      rw [e, hz, hpa]
      exact ⟨a1, a2, (ATMaster.buf_add_fields CAP s b).2.1⟩
  | AT_LINE_LENGTH =>
    obtain ⟨-, f2, f3, -, f5⟩ := ATMaster.buf_add_fields CAP s b
    have fe := ATMaster.regs_expected_length _ _ f5
    obtain ⟨a1, a2, a3⟩ := ATMaster.buf_add_account CAP s b hwf
    by_cases hc : (s._buf_message_len + 1) % UINT32_MOD ≥ s.expected_length
    · have hc' : ((ATMaster._buf_add CAP s b)._buf_message_len + 1) % UINT32_MOD ≥
          (ATMaster._buf_add CAP s b).expected_length := by
        rw [f3, fe]
        exact hc
      have e : ATMaster._rx_irq CAP s b =
          { ATMaster._buf_add CAP
              { ATMaster._buf_add CAP s b with
                _buf_message_len :=
                  ((ATMaster._buf_add CAP s b)._buf_message_len + 1) % UINT32_MOD } 0 with
            _has_data := ((ATMaster._buf_add CAP
              { ATMaster._buf_add CAP s b with
                _buf_message_len :=
                  ((ATMaster._buf_add CAP s b)._buf_message_len + 1) % UINT32_MOD } 0)._has_data
                + 1) % UINT32_MOD
            _buf_message_len := 0 } := by
        simp only [ATMaster._rx_irq, hm]
        rw [if_pos hc']
      have hz : ATMaster.zeros_stored CAP s (Op.rx b)
          = zero_stored CAP s._buf_len b + zero_stored CAP (len_after CAP s._buf_len) 0 := by
        simp only [ATMaster.zeros_stored, hm, if_pos hc]
      have hpa : ATMaster.pending_added s (Op.rx b) = 1 := by
        simp only [ATMaster.pending_added, hm, if_pos hc]
      have hwf2 : ATMaster.wf CAP
          { ATMaster._buf_add CAP s b with
            _buf_message_len := ((ATMaster._buf_add CAP s b)._buf_message_len + 1)
              % UINT32_MOD } := a1
      obtain ⟨b1, b2, -⟩ := ATMaster.buf_add_account CAP _ 0 hwf2
      rw [e, hz, hpa]
      refine ⟨b1, ?_, ?_⟩
      · show (ATMaster.contents CAP (ATMaster._buf_add CAP _ 0)).count 0 = _
        rw [b2]
        show (ATMaster.contents CAP (ATMaster._buf_add CAP s b)).count 0
          + zero_stored CAP (ATMaster._buf_add CAP s b)._buf_len 0 = _
        rw [a2, a3, Nat.add_assoc]
      · show ((ATMaster._buf_add CAP _ 0)._has_data + 1) % UINT32_MOD = _
        rw [(ATMaster.buf_add_fields CAP _ 0).2.1]
        show ((ATMaster._buf_add CAP s b)._has_data + 1) % UINT32_MOD = _
        rw [f2]
        rfl
    · have hc' : ¬ ((ATMaster._buf_add CAP s b)._buf_message_len + 1) % UINT32_MOD ≥
          (ATMaster._buf_add CAP s b).expected_length := by
        rw [f3, fe]
        exact hc
      have e : ATMaster._rx_irq CAP s b =
          { ATMaster._buf_add CAP s b with
            _buf_message_len := ((ATMaster._buf_add CAP s b)._buf_message_len + 1)
              % UINT32_MOD } := by
        simp only [ATMaster._rx_irq, hm]
        rw [if_neg hc']
      have hz : ATMaster.zeros_stored CAP s (Op.rx b) = zero_stored CAP s._buf_len b := by
        simp only [ATMaster.zeros_stored, hm, if_neg hc, Nat.add_zero]
      have hpa : ATMaster.pending_added s (Op.rx b) = 0 := by
        simp only [ATMaster.pending_added, hm, if_neg hc]
      rw [e, hz, hpa]
      exact ⟨a1, a2, f2⟩

theorem ATMaster.set_line_mode_account (CAP : Nat) (s : ATMaster) (m : _AT_LINE_MODE)
    (hwf : ATMaster.wf CAP s) :
    ATMaster.accounted CAP s (ATMaster.set_line_mode CAP s m)
      (ATMaster.zeros_stored CAP s (Op.set_line_mode m))
      (ATMaster.pending_added s (Op.set_line_mode m)) := by
  have hwf1 : ATMaster.wf CAP { s with _line_mode := m } := hwf
  by_cases hc : m = AT_LINE_LENGTH ∧ s._buf_message_len ≥ s.expected_length
  · have e : ATMaster.set_line_mode CAP s m =
        { ATMaster._buf_add CAP { s with _line_mode := m } 0 with
          _has_data := ((ATMaster._buf_add CAP { s with _line_mode := m } 0)._has_data + 1)
            % UINT32_MOD
          _buf_message_len := 0 } := by
      simp only [ATMaster.set_line_mode, hc.1, if_true]
      rw [if_pos (show s._buf_message_len ≥ s.expected_length from hc.2)]
    have hz : ATMaster.zeros_stored CAP s (Op.set_line_mode m) = zero_stored CAP s._buf_len 0 := by
      simp only [ATMaster.zeros_stored, if_pos hc]
    have hpa : ATMaster.pending_added s (Op.set_line_mode m) = 1 := by
      simp only [ATMaster.pending_added, if_pos hc]
    obtain ⟨a1, a2, -⟩ := ATMaster.buf_add_account CAP { s with _line_mode := m } 0 hwf1
    rw [e, hz, hpa]
    refine ⟨a1, a2, ?_⟩
    show ((ATMaster._buf_add CAP _ 0)._has_data + 1) % UINT32_MOD = _
    rw [(ATMaster.buf_add_fields CAP _ 0).2.1]
    rfl
  · have e : ATMaster.set_line_mode CAP s m = { s with _line_mode := m } := by
      unfold ATMaster.set_line_mode
      by_cases hm : m = AT_LINE_LENGTH
      · have hlt : ¬ s._buf_message_len ≥ s.expected_length := fun h => hc ⟨hm, h⟩
        simp only [hm, if_true]
        rw [if_neg hlt]
      · simp only [hm, if_false]
    have hz : ATMaster.zeros_stored CAP s (Op.set_line_mode m) = 0 := by
      simp only [ATMaster.zeros_stored, if_neg hc]
    have hpa : ATMaster.pending_added s (Op.set_line_mode m) = 0 := by
      simp only [ATMaster.pending_added, if_neg hc]
    rw [e, hz, hpa]
    exact ⟨hwf1, rfl, rfl⟩

theorem ATMaster.pending_added_le (s : ATMaster) (op : Op) : ATMaster.pending_added s op ≤ 1 := by
  cases op with
  | rx recv =>
    cases hm : s._line_mode <;> simp only [ATMaster.pending_added, hm] <;> split_ifs <;> omega
  | set_line_mode m =>
    simp only [ATMaster.pending_added]
    split_ifs <;> omega
  | process d => exact Nat.zero_le _
  | set_expected_length n => exact Nat.zero_le _
  | set_custom c => exact Nat.zero_le _
  | set_init p => exact Nat.zero_le _

/-- From a state in which the pending counter equals the number of buffered
`'\0'` bytes, a call that is accounted for keeps the equality exactly when it
stores as many `'\0'` bytes as it adds to the counter. -/
theorem ATMaster.paired_of_accounted (CAP : Nat) (s t : ATMaster) (dz dp : Nat)
    (hcap : CAP < UINT32_MOD) (hdp : dp ≤ 1) (hp : ATMaster.paired CAP s)
    (ha : ATMaster.accounted CAP s t dz dp) : ATMaster.paired CAP t ↔ dz = dp := by
  obtain ⟨w, hc, hd⟩ := ha
  have h1 := ATMaster.count_le_len CAP t
  have h2 := w.2.2.1
  have h3 := ATMaster.count_le_len CAP s
  have h4 := hp.1.2.2.1
  have h5 := hp.2
  unfold ATMaster.paired
  simp only [w, true_and]
  rw [hd, hc, h5]
  simp only [UINT32_MOD] at hcap ⊢
  by_cases h0 : dp = 0
  · rw [if_pos h0]
    omega
  · rw [if_neg h0]
    rw [hc] at h1
    omega

theorem ATMaster.step_accounted (CAP : Nat) (s : ATMaster) (op : Op)
    (hwf : ATMaster.wf CAP s) (hnp : ∀ d, op ≠ Op.process d) :
    ATMaster.accounted CAP s (ATMaster.step CAP s op).1
      (ATMaster.zeros_stored CAP s op) (ATMaster.pending_added s op) := by
  cases op with
  | rx recv => exact ATMaster.rx_account CAP s recv hwf
  | process d => exact absurd rfl (hnp d)
  | set_line_mode m => exact ATMaster.set_line_mode_account CAP s m hwf
  | set_expected_length n => exact ⟨hwf, rfl, rfl⟩
  | set_custom c => exact ⟨hwf, rfl, rfl⟩
  | set_init p => exact ⟨hwf, rfl, rfl⟩

/-- For every call other than `process`, from a state in which the pending
counter equals the number of buffered `'\0'` bytes: the equality survives the
call exactly when the call stores as many `'\0'` bytes as it adds to the
counter. -/
theorem ATMaster.paired_step_iff (CAP : Nat) (s : ATMaster) (op : Op) (hcap : CAP < UINT32_MOD)
    (hp : ATMaster.paired CAP s) (hnp : ∀ d, op ≠ Op.process d) :
    ATMaster.paired CAP (ATMaster.step CAP s op).1 ↔
      ATMaster.zeros_stored CAP s op = ATMaster.pending_added s op :=
  ATMaster.paired_of_accounted CAP s _ _ _ hcap (ATMaster.pending_added_le s op) hp
    (ATMaster.step_accounted CAP s op hp.1 hnp)

theorem ATMaster.paired_run (CAP : Nat) (hcap : CAP < UINT32_MOD) (ops : List Op) :
    ∀ s : ATMaster, ATMaster.paired CAP s → ATMaster.clean CAP s ops →
      ATMaster.paired CAP (ATMaster.run CAP s ops).1 := by
  induction ops with
  | nil => intro s hp _; exact hp
  | cons op ops ih =>
    intro s hp hcl
    obtain ⟨hbal, hrest⟩ := hcl
    apply ih _ _ hrest
    by_cases hproc : ∃ d, op = Op.process d
    · obtain ⟨d, rfl⟩ := hproc
      exact ATMaster.paired_process CAP s d hp
    · exact (ATMaster.paired_step_iff CAP s op hcap hp
        (fun d h => hproc ⟨d, h⟩)).mpr hbal

/-- The restriction to clean runs leaves out no run on which the equality
holds: a run in whose every state the pending counter equals the number of
buffered `'\0'` bytes is clean. -/
theorem ATMaster.clean_of_paired_throughout (CAP : Nat) (hcap : CAP < UINT32_MOD)
    (ops : List Op) :
    ∀ s : ATMaster, ATMaster.paired CAP s →
      (∀ handled, handled <+: ops →
        (ATMaster.run CAP s handled).1._has_data
          = (ATMaster.contents CAP (ATMaster.run CAP s handled).1).count 0) →
      ATMaster.clean CAP s ops := by
  induction ops with
  | nil => intro s _ _; exact trivial
  | cons op ops ih =>
    intro s hp hall
    have hone := hall [op] (by simp)
    have hnext : ATMaster.paired CAP (ATMaster.step CAP s op).1 := by
      by_cases hproc : ∃ d, op = Op.process d
      · obtain ⟨d, rfl⟩ := hproc
        exact ATMaster.paired_process CAP s d hp
      · exact ⟨(ATMaster.step_accounted CAP s op hp.1 (fun d h => hproc ⟨d, h⟩)).1, hone⟩
    refine ⟨?_, ih _ hnext (fun handled hpre =>
      hall (op :: handled) (List.cons_prefix_cons.mpr ⟨rfl, hpre⟩))⟩
    by_cases hproc : ∃ d, op = Op.process d
    · obtain ⟨d, rfl⟩ := hproc
      rfl
    · exact (ATMaster.paired_step_iff CAP s op hcap hp (fun d h => hproc ⟨d, h⟩)).mp hnext

/-- C14, as the code has it: in every state reached from the freshly
constructed driver by byte arrivals in any framing mode, `set_line_mode`
calls, writes of `expected_length`, prefix registrations and `process` calls,
each of which stores as many `'\0'` bytes in the ring buffer as it adds to the
pending counter (no `'\0'` byte from the wire is stored without a frame
closing, no frame closes without a `'\0'` being stored), the pending counter
equals the number of `'\0'` bytes among the occupied bytes.  The buffer size
is positive and one that a 32-bit index can address. -/
theorem C14_pending_counts_sentinels (CAP : Nat)
    ( ok_prefix error_prefix init_mem custom_mem : List Nat) (ops : List Op) (hpos : 0 < CAP)
    (hcap : CAP < UINT32_MOD)
    (hclean : ATMaster.clean CAP (ATMaster.fresh ok_prefix error_prefix init_mem custom_mem) ops) :
    (ATMaster.run CAP (ATMaster.fresh ok_prefix error_prefix init_mem custom_mem) ops).1._has_data
      = (ATMaster.contents CAP
          (ATMaster.run CAP (ATMaster.fresh ok_prefix error_prefix init_mem custom_mem)
            ops).1).count 0 :=
  (ATMaster.paired_run CAP hcap ops _ ⟨ATMaster.fresh_wf CAP hpos _ _ _ _, rfl⟩ hclean).2

/-- Witness of C14: with `CAP = 4`, `"OK\r\n"` fills the buffer up to one
place, `'X'` takes the last place and `'Y'` is dropped by the full buffer; the
message is read, then the switch to LENGTH mode with `expected_length = 1`
closes the bytes counted so far and `'A'` closes one more frame.  The dropped
data byte does not disturb the equality. -/
theorem C14_pending_counts_sentinels_witness :
    ATMaster.clean 4 (ATMaster.fresh [79, 75] [69, 82, 82, 79, 82] [] [])
      [Op.rx 79, Op.rx 75, Op.rx 13, Op.rx 10, Op.rx 88, Op.rx 89,
        Op.process (some (fun _ => 255)), Op.set_expected_length 1,
        Op.set_line_mode AT_LINE_LENGTH, Op.rx 65] ∧
    (ATMaster.run 4 (ATMaster.fresh [79, 75] [69, 82, 82, 79, 82] [] [])
      [Op.rx 79, Op.rx 75, Op.rx 13, Op.rx 10, Op.rx 88, Op.rx 89,
        Op.process (some (fun _ => 255)), Op.set_expected_length 1,
        Op.set_line_mode AT_LINE_LENGTH, Op.rx 65]).1._has_data
      = (ATMaster.contents 4
          (ATMaster.run 4 (ATMaster.fresh [79, 75] [69, 82, 82, 79, 82] [] [])
            [Op.rx 79, Op.rx 75, Op.rx 13, Op.rx 10, Op.rx 88, Op.rx 89,
              Op.process (some (fun _ => 255)), Op.set_expected_length 1,
              Op.set_line_mode AT_LINE_LENGTH, Op.rx 65]).1).count 0 :=
  have hclean : ATMaster.clean 4 (ATMaster.fresh [79, 75] [69, 82, 82, 79, 82] [] [])
      [Op.rx 79, Op.rx 75, Op.rx 13, Op.rx 10, Op.rx 88, Op.rx 89,
        Op.process (some (fun _ => 255)), Op.set_expected_length 1,
        Op.set_line_mode AT_LINE_LENGTH, Op.rx 65] := by
    simp [ATMaster.clean, ATMaster.step, ATMaster.zeros_stored, ATMaster.pending_added,
      zero_stored, len_after, ATMaster.process, ATMaster.drain, ATMaster.fresh, ATMaster.ctor,
      ATMaster.zeroed, ATMaster.set_line_mode, ATMaster.set_expected_length, ATMaster._rx_irq,
      ATMaster._buf_add, ATMaster.classify, ATMaster.buf_compare, ATMaster.buf_compare_loop,
      ATMaster._buf_take, store, UINT32_MOD, CStrPtr.chars]
  ⟨hclean,
   C14_pending_counts_sentinels 4 [79, 75] [69, 82, 82, 79, 82] [] [] _ (by decide)
     (by decide) hclean⟩

/-- C14 as stated fails: a `'\0'` byte from the wire is buffered as data
without a pending message, and a late close on a full buffer raises the
pending counter without a sentinel in the buffer. -/
theorem C14_pending_counts_sentinels_counterexample :
    ((ATMaster.run 128 (ATMaster.fresh [79, 75] [69, 82, 82, 79, 82] [] [])
        [Op.rx 0]).1._has_data = 0 ∧
      (ATMaster.contents 128
        (ATMaster.run 128 (ATMaster.fresh [79, 75] [69, 82, 82, 79, 82] [] [])
          [Op.rx 0]).1).count 0 = 1) ∧
    ((ATMaster.run 2 (ATMaster.fresh [79, 75] [69, 82, 82, 79, 82] [] [])
        [Op.rx 65, Op.rx 66, Op.set_expected_length 2,
          Op.set_line_mode AT_LINE_LENGTH]).1._has_data = 1 ∧
      (ATMaster.contents 2
        (ATMaster.run 2 (ATMaster.fresh [79, 75] [69, 82, 82, 79, 82] [] [])
          [Op.rx 65, Op.rx 66, Op.set_expected_length 2,
            Op.set_line_mode AT_LINE_LENGTH]).1).count 0 = 0) := by
  decide
